import Mathlib

/-!
# Dispatcher / Receiver (Source/Common/Dispatcher.hpp)

A shallow embedding of the intrusive doubly linked subscriber list kept by
`DispatcherBase<ReturnType(Arguments...)>`.

* Objects live in a `Memory`: receivers and dispatchers are addressed by natural
  numbers, a C++ pointer is an `Option Nat` (`none` is `nullptr`).
* Every member function is a function on `Memory`; the statements of the C++ body
  are applied one after another, each reading the memory left by the previous one.
* `Assert` and `Verify` abort: a failed check ends the call with a `Fault` and the
  memory as it was when the check was reached.
* The two loops (`UnsubscribeAll`, `Dispatch`) take a fuel argument; `none` means the
  fuel ran out before the loop ended.
* `Memory.calls` is a ghost log of the `Receive` invocations made so far.
-/

namespace Dispatcher

/-- Fields of `Receiver<ReturnType(Arguments...)>` that the dispatcher reads and
writes: the back-reference to the dispatcher and the two intrusive links. -/
structure Receiver where
  m_dispatcher : Option Nat
  m_previous : Option Nat
  m_next : Option Nat
deriving DecidableEq

/-- Fields of `DispatcherBase`: head (`m_begin`) and tail (`m_end`) of the list. -/
structure DispatcherBase where
  m_begin : Option Nat
  m_end : Option Nat
deriving DecidableEq

/-- The object store: receivers by address, dispatchers by address, and the ghost log
of handler invocations (receiver address and argument), oldest first. -/
structure Memory (α : Type) where
  receivers : Nat → Receiver
  dispatchers : Nat → DispatcherBase
  calls : List (Nat × α)

/-- Modelled from the spec: the `Verify` and `Assert` macros (their header is not among
the sources). A failed check "fails fast (abort/assert)": the call ends there. The two
constructors tell which macro failed. -/
inductive Fault where
  | verify
  | assert
deriving DecidableEq

/-- Outcome of a member function: a fault together with the memory at the moment the
check failed, or the normal result. -/
abbrev Outcome (α : Type) (ρ : Type) := Except (Fault × Memory α) ρ

section Stores

variable {α : Type}

/-- Store `receiver.m_dispatcher = v`. -/
def Memory.setDispatcher (m : Memory α) (r : Nat) (v : Option Nat) : Memory α :=
  { m with receivers := fun j => if j = r then { m.receivers r with m_dispatcher := v } else m.receivers j }

/-- Store `receiver.m_previous = v`. -/
def Memory.setPrevious (m : Memory α) (r : Nat) (v : Option Nat) : Memory α :=
  { m with receivers := fun j => if j = r then { m.receivers r with m_previous := v } else m.receivers j }

/-- Store `receiver.m_next = v`. -/
def Memory.setNext (m : Memory α) (r : Nat) (v : Option Nat) : Memory α :=
  { m with receivers := fun j => if j = r then { m.receivers r with m_next := v } else m.receivers j }

/-- Store `m_begin = v` in dispatcher `d`. -/
def Memory.setBegin (m : Memory α) (d : Nat) (v : Option Nat) : Memory α :=
  { m with dispatchers := fun j => if j = d then { m.dispatchers d with m_begin := v } else m.dispatchers j }

/-- Store `m_end = v` in dispatcher `d`. -/
def Memory.setEnd (m : Memory α) (d : Nat) (v : Option Nat) : Memory α :=
  { m with dispatchers := fun j => if j = d then { m.dispatchers d with m_end := v } else m.dispatchers j }

/-- Ghost step: record that receiver `r` was invoked with argument `x`. -/
def Memory.logCall (m : Memory α) (r : Nat) (x : α) : Memory α :=
  { m with calls := m.calls ++ [(r, x)] }

/-- The three stores that end `Unsubscribe` and the body of the `UnsubscribeAll` loop:
`m_dispatcher = nullptr; m_previous = nullptr; m_next = nullptr`. -/
def Memory.clearReceiver (m : Memory α) (r : Nat) : Memory α :=
  ((m.setDispatcher r none).setPrevious r none).setNext r none

end Stores

section Operations

variable {α : Type}

/-- `DispatcherBase::Unsubscribe(receiver)` (Dispatcher.hpp 224-274). -/
def DispatcherBase.Unsubscribe (m : Memory α) (this receiver : Nat) : Outcome α (Memory α) :=
  -- Verify(receiver.m_dispatcher == this, ...)
  if (m.receivers receiver).m_dispatcher ≠ some this then .error (Fault.verify, m)
  else if (m.dispatchers this).m_begin = some receiver then
    if (m.dispatchers this).m_end = some receiver then
      -- only element: m_begin = nullptr; m_end = nullptr;
      .ok (((m.setBegin this none).setEnd this none).clearReceiver receiver)
    else
      -- Assert(receiver.m_next != nullptr, ...)
      match (m.receivers receiver).m_next with
      | none => .error (Fault.assert, m)
      | some n =>
        -- m_begin = receiver.m_next; m_begin->m_previous = nullptr;
        .ok (((m.setBegin this (some n)).setPrevious n none).clearReceiver receiver)
  else if (m.dispatchers this).m_end = some receiver then
    -- Assert(receiver.m_previous != nullptr, ...)
    match (m.receivers receiver).m_previous with
    | none => .error (Fault.assert, m)
    | some p =>
      -- m_end = receiver.m_previous; m_end->m_next = nullptr;
      .ok (((m.setEnd this (some p)).setNext p none).clearReceiver receiver)
  else
    -- Assert(receiver.m_previous != nullptr, ...); Assert(receiver.m_next != nullptr, ...)
    match (m.receivers receiver).m_previous, (m.receivers receiver).m_next with
    | some p, some n =>
      -- receiver.m_previous->m_next = receiver.m_next;
      -- receiver.m_next->m_previous = receiver.m_previous;
      -- (the first store writes the value n into an m_next field, so receiver.m_next
      --  and receiver.m_previous read by the second statement are still n and p)
      .ok (((m.setNext p (some n)).setPrevious n (some p)).clearReceiver receiver)
    | _, _ => .error (Fault.assert, m)

/-- Modelled from the spec: `Receiver::Unsubscribe()` (Receiver.hpp is not among the
sources). "If currently subscribed, removes self from the owning dispatcher's list
(delegates to dispatcher) and clears its own back-reference; no-op (not an error) if
not subscribed." -/
def Receiver.Unsubscribe (m : Memory α) (this : Nat) : Outcome α (Memory α) :=
  match (m.receivers this).m_dispatcher with
  | none => .ok m
  | some d =>
    match DispatcherBase.Unsubscribe m d this with
    | .error e => .error e
    | .ok m1 => .ok (m1.setDispatcher this none)

/-- The part of `DispatcherBase::Subscribe` after the early returns
(Dispatcher.hpp 198-221): the two link assertions, the insertion at the tail and the
store of the back-reference. -/
def DispatcherBase.Subscribe.link (m : Memory α) (this receiver : Nat) :
    Outcome α (Bool × Memory α) :=
  -- Assert(receiver.m_previous == nullptr, ...)
  if (m.receivers receiver).m_previous ≠ none then .error (Fault.assert, m)
  -- Assert(receiver.m_next == nullptr, ...)
  else if (m.receivers receiver).m_next ≠ none then .error (Fault.assert, m)
  else
    match (m.dispatchers this).m_begin with
    | none =>
      -- Assert(m_end == nullptr, ...)
      if (m.dispatchers this).m_end ≠ none then .error (Fault.assert, m)
      else
        -- m_begin = &receiver; m_end = &receiver; receiver.m_dispatcher = this;
        .ok (true, ((m.setBegin this (some receiver)).setEnd this (some receiver)).setDispatcher
          receiver (some this))
    | some _ =>
      -- Assert(m_end != nullptr, ...)
      match (m.dispatchers this).m_end with
      | none => .error (Fault.assert, m)
      | some e =>
        -- m_end->m_next = &receiver; receiver.m_previous = m_end; m_end = &receiver;
        -- receiver.m_dispatcher = this;
        .ok (true, ((((m.setNext e (some receiver)).setPrevious receiver (some e)).setEnd this
          (some receiver)).setDispatcher receiver (some this)))

/-- `DispatcherBase::Subscribe(receiver, replace)` (Dispatcher.hpp 180-222). -/
def DispatcherBase.Subscribe (m : Memory α) (this receiver : Nat) (replace : Bool) :
    Outcome α (Bool × Memory α) :=
  match (m.receivers receiver).m_dispatcher with
  | some d =>
    -- already subscribed to this dispatcher
    if d = this then .ok (true, m)
    -- subscribed elsewhere and no replacement wanted
    else if !replace then .ok (false, m)
    else
      -- receiver.Unsubscribe();
      match Receiver.Unsubscribe m receiver with
      | .error e => .error e
      | .ok m1 => DispatcherBase.Subscribe.link m1 this receiver
  | none => DispatcherBase.Subscribe.link m this receiver

/-- The `while(iterator != nullptr)` loop of `DispatcherBase::UnsubscribeAll`
(Dispatcher.hpp 161-174); the second argument is `iterator`. -/
def DispatcherBase.UnsubscribeAll.loop : Nat → Memory α → Option Nat → Option (Outcome α (Memory α))
  | _, m, none => some (.ok m)
  | 0, _, some _ => none
  | fuel + 1, m, some receiver =>
    -- Assert(receiver->m_dispatcher != nullptr, ...)
    if (m.receivers receiver).m_dispatcher = none then some (.error (Fault.assert, m))
    else
      -- iterator = iterator->m_next; then clear the receiver's three fields
      DispatcherBase.UnsubscribeAll.loop fuel (m.clearReceiver receiver) (m.receivers receiver).m_next

/-- `DispatcherBase::UnsubscribeAll()` (Dispatcher.hpp 155-178), also the body of the
destructor `~DispatcherBase()` (149-153). -/
def DispatcherBase.UnsubscribeAll (fuel : Nat) (m : Memory α) (this : Nat) :
    Option (Outcome α (Memory α)) :=
  match DispatcherBase.UnsubscribeAll.loop fuel m (m.dispatchers this).m_begin with
  | none => none
  | some (.error e) => some (.error e)
  | some (.ok m1) => some (.ok ((m1.setBegin this none).setEnd this none))

/-- `DispatcherBase::HasSubscribers()` (Dispatcher.hpp 301-305). -/
def DispatcherBase.HasSubscribers (m : Memory α) (this : Nat) : Bool :=
  (m.dispatchers this).m_begin != none

/-- Modelled from the spec: a collector (Collector.hpp is not among the sources):
"accumulate one receiver's result and return whether dispatch should continue; produce
a final aggregated result". `init` is the freshly constructed collector, `apply` is
the call operator (new collector, continue flag), `GetResult` the final result. -/
structure Collector (σ β : Type) where
  init : σ
  apply : σ → β → σ × Bool
  GetResult : σ → β

/-- The `while(receiver != nullptr)` loop of `DispatcherBase::Dispatch`
(Dispatcher.hpp 286-295). `Receive r x` is the value returned by the callable bound to
receiver `r` for argument `x`; the third argument of the loop is `receiver`. -/
def DispatcherBase.Dispatch.loop {σ β : Type} (C : Collector σ β) (Receive : Nat → α → β) (x : α) :
    Nat → Memory α → Option Nat → σ → Option (σ × Memory α)
  | _, m, none, s => some (s, m)
  | 0, _, some _, _ => none
  | fuel + 1, m, some receiver, s =>
    -- invocation(collector, receiver, arguments...): receiver->Receive(arguments...)
    -- is handed to the collector, whose answer is the continue flag
    if (C.apply s (Receive receiver x)).2 then
      -- receiver = receiver->m_next;
      DispatcherBase.Dispatch.loop C Receive x fuel (m.logCall receiver x)
        ((m.logCall receiver x).receivers receiver).m_next (C.apply s (Receive receiver x)).1
    else
      -- break;
      some ((C.apply s (Receive receiver x)).1, m.logCall receiver x)

/-- `DispatcherBase::Dispatch<Collector>(arguments...)` (Dispatcher.hpp 276-299):
returns `collector.GetResult()` and the memory with the invocations logged. -/
def DispatcherBase.Dispatch {σ β : Type} (C : Collector σ β) (Receive : Nat → α → β)
    (fuel : Nat) (m : Memory α) (this : Nat) (x : α) : Option (β × Memory α) :=
  match DispatcherBase.Dispatch.loop C Receive x fuel m (m.dispatchers this).m_begin C.init with
  | none => none
  | some (s, m1) => some (C.GetResult s, m1)

end Operations

section Representation

variable {α : Type}

/-- A run of receivers `l` of dispatcher `d` as laid out in memory: each one has
back-reference `d`, its previous link is its predecessor in `l` (`p` for the first) and
its next link is its successor in `l` (`n` for the last). -/
def Seg (m : Memory α) (d : Nat) : Option Nat → List Nat → Option Nat → Prop
  | _, [], _ => True
  | p, r :: rest, n =>
    m.receivers r = ⟨some d, p, rest.head?.or n⟩ ∧ Seg m d (some r) rest n

instance Seg.decidable (m : Memory α) (d : Nat) :
    ∀ (p : Option Nat) (l : List Nat) (n : Option Nat), Decidable (Seg m d p l n)
  | _, [], _ => isTrue trivial
  | p, r :: rest, n =>
    match Seg.decidable m d (some r) rest n with
    | isTrue h =>
      if h0 : m.receivers r = ⟨some d, p, rest.head?.or n⟩ then isTrue ⟨h0, h⟩
      else isFalse (fun h1 => h0 h1.1)
    | isFalse h => isFalse (fun h1 => h h1.2)

/-- Well-formed subscriber list: the receivers of dispatcher `d`, from head to tail,
are exactly `l`. The receivers are distinct (no cycle), `m_begin` is the first and
`m_end` the last of them (both null when `l` is empty), following `m_next` from the
head visits `l` and ends with null, following `m_previous` from the tail visits `l`
in reverse and ends with null, and every member's back-reference is `d`. -/
def SubscriberList (m : Memory α) (d : Nat) (l : List Nat) : Prop :=
  l.Nodup ∧ (m.dispatchers d).m_begin = l.head? ∧ (m.dispatchers d).m_end = l.getLast? ∧
    Seg m d none l none

instance SubscriberList.decidable (m : Memory α) (d : Nat) (l : List Nat) :
    Decidable (SubscriberList m d l) :=
  inferInstanceAs (Decidable (l.Nodup ∧ (m.dispatchers d).m_begin = l.head? ∧
    (m.dispatchers d).m_end = l.getLast? ∧ Seg m d none l none))

/-- A receiver that is subscribed nowhere in a well-formed state: null back-reference
and (the receiver invariant) null links. -/
def Unsubscribed (m : Memory α) (r : Nat) : Prop :=
  m.receivers r = ⟨none, none, none⟩

instance Unsubscribed.decidable (m : Memory α) (r : Nat) : Decidable (Unsubscribed m r) :=
  inferInstanceAs (Decidable (m.receivers r = ⟨none, none, none⟩))

/-- The memory of a program that has constructed its dispatchers and receivers and
nothing else: every list empty, every receiver unsubscribed, nothing invoked. -/
def Memory.initial : Memory α :=
  { receivers := fun _ => ⟨none, none, none⟩, dispatchers := fun _ => ⟨none, none⟩, calls := [] }

/-- Well-formed state (the data-model invariants of receivers and dispatchers): every
dispatcher has a well-formed list that holds exactly the receivers whose
back-reference is that dispatcher, and a receiver with a null back-reference has null
links. -/
def WellFormed (m : Memory α) : Prop :=
  (∀ d, ∃ l, SubscriberList m d l ∧ ∀ r, (m.receivers r).m_dispatcher = some d → r ∈ l) ∧
    ∀ r, (m.receivers r).m_dispatcher = none → Unsubscribed m r

/-- The destructor `~DispatcherBase()` (Dispatcher.hpp 149-153): `this->UnsubscribeAll()`. -/
def DispatcherBase.destructor (fuel : Nat) (m : Memory α) (this : Nat) :
    Option (Outcome α (Memory α)) :=
  DispatcherBase.UnsubscribeAll fuel m this

/-- A caller that subscribes the receivers `rs` to dispatcher `d` one after another
with `replace = false`, collecting the returned flags. -/
def subscribeInOrder (m : Memory α) (d : Nat) : List Nat → Outcome α (List Bool × Memory α)
  | [] => .ok ([], m)
  | r :: rs =>
    match DispatcherBase.Subscribe m d r false with
    | .error e => .error e
    | .ok (b, m1) =>
      match subscribeInOrder m1 d rs with
      | .error e => .error e
      | .ok (bs, m2) => .ok (b :: bs, m2)

/-- Feeding a collector a sequence of results in order: the collector reached and the
continue flag of the last call. -/
def Collector.feed {σ β : Type} (C : Collector σ β) : σ × Bool → List β → σ × Bool
  | acc, [] => acc
  | acc, b :: bs => C.feed (C.apply acc.1 b) bs

/-- The flag reported by a fresh collector after it was fed `bs` in order
(`false` is "stop"). -/
def Collector.continuesAfter {σ β : Type} (C : Collector σ β) (bs : List β) : Bool :=
  (C.feed (C.init, true) bs).2

/-- The receivers of `l` that a walk starting with collector `s` invokes: each one in
turn up to and including the first after which the collector reports stop. -/
def invoked {σ β : Type} (C : Collector σ β) (Receive : Nat → α → β) (x : α) :
    σ → List Nat → List Nat
  | _, [] => []
  | s, r :: rest =>
    if (C.apply s (Receive r x)).2 then r :: invoked C Receive x (C.apply s (Receive r x)).1 rest
    else [r]

/-- The collector left by that walk. -/
def collected {σ β : Type} (C : Collector σ β) (Receive : Nat → α → β) (x : α) :
    σ → List Nat → σ
  | s, [] => s
  | s, r :: rest =>
    if (C.apply s (Receive r x)).2 then collected C Receive x (C.apply s (Receive r x)).1 rest
    else (C.apply s (Receive r x)).1

/-- Modelled from the spec: the default collector for `void` signatures (Collector.hpp
is not among the sources): "always continue, final result is none". -/
def CollectDefaultVoid : Collector Unit Unit :=
  { init := (), apply := fun _ _ => ((), true), GetResult := fun _ => () }

/-- Modelled from the spec: a collector "configured to stop after the first receiver
that returns `true`"; it keeps the last value it was given. -/
def CollectUntilTrue : Collector Bool Bool :=
  { init := false, apply := fun _ b => (b, !b), GetResult := fun s => s }

/-- A sample state: dispatcher 0 holds receivers 1, 2, 3 (in that order), dispatcher 1
holds receiver 4, every other receiver is unsubscribed and every other dispatcher is
empty. -/
def sampleMemory : Memory Nat :=
  { receivers := fun j =>
      if j = 1 then ⟨some 0, none, some 2⟩
      else if j = 2 then ⟨some 0, some 1, some 3⟩
      else if j = 3 then ⟨some 0, some 2, none⟩
      else if j = 4 then ⟨some 1, none, none⟩
      else ⟨none, none, none⟩
    dispatchers := fun j =>
      if j = 0 then ⟨some 1, some 3⟩
      else if j = 1 then ⟨some 4, some 4⟩
      else ⟨none, none⟩
    calls := [] }

/-- The constructor `DispatcherBase::DispatcherBase()` (Dispatcher.hpp 142-147):
`m_begin(nullptr), m_end(nullptr)`. -/
def DispatcherBase.constructor (m : Memory α) (this : Nat) : Memory α :=
  (m.setBegin this none).setEnd this none

/-- Following the `m_next` links from a pointer until null: the receivers visited, in
the order of the visit. -/
def walkNext (m : Memory α) : Nat → Option Nat → Option (List Nat)
  | _, none => some []
  | 0, some _ => none
  | fuel + 1, some r =>
    match walkNext m fuel (m.receivers r).m_next with
    | none => none
    | some l => some (r :: l)

/-- Following the `m_previous` links from a pointer until null. -/
def walkPrevious (m : Memory α) : Nat → Option Nat → Option (List Nat)
  | _, none => some []
  | 0, some _ => none
  | fuel + 1, some r =>
    match walkPrevious m fuel (m.receivers r).m_previous with
    | none => none
    | some l => some (r :: l)

/-- The list of a dispatcher as its links give it: the walk along `m_next` from the
head. -/
def DispatcherBase.subscribers (fuel : Nat) (m : Memory α) (this : Nat) : Option (List Nat) :=
  walkNext m fuel (m.dispatchers this).m_begin

/-- One call of the public interface of `DispatcherBase`; `UnsubscribeAll` carries the
fuel of its loop. -/
inductive Call where
  | Subscribe (this receiver : Nat) (replace : Bool)
  | Unsubscribe (this receiver : Nat)
  | UnsubscribeAll (this fuel : Nat)
deriving DecidableEq

/-- Running one call; the flag returned by `Subscribe` is dropped. -/
def Call.run (m : Memory α) : Call → Option (Outcome α (Memory α))
  | Call.Subscribe d r replace =>
    match DispatcherBase.Subscribe m d r replace with
    | .error e => some (.error e)
    | .ok (_, m1) => some (.ok m1)
  | Call.Unsubscribe d r => some (DispatcherBase.Unsubscribe m d r)
  | Call.UnsubscribeAll d fuel => DispatcherBase.UnsubscribeAll fuel m d

/-- Running a sequence of calls one after another; a fault ends the run. -/
def runCalls : Memory α → List Call → Option (Outcome α (Memory α))
  | m, [] => some (.ok m)
  | m, c :: cs =>
    match c.run m with
    | none => none
    | some (.error e) => some (.error e)
    | some (.ok m1) => runCalls m1 cs

/-- A state reached from newly constructed dispatchers and unsubscribed receivers by a
finite sequence of `Subscribe`, `Unsubscribe` and `UnsubscribeAll` calls that all
returned. -/
def Reachable (m : Memory α) : Prop :=
  ∃ cs, runCalls Memory.initial cs = some (.ok m)

/-- Modelled from the spec: the default collector for value-returning signatures
(Collector.hpp is not among the sources): "keep the last value, always continue". The
argument is the value a fresh collector holds. -/
def CollectDefault {β : Type} (fresh : β) : Collector β β :=
  { init := fresh, apply := fun _ b => (b, true), GetResult := fun s => s }

/-- A sample run: receivers 1 and 2 join dispatcher 0, receiver 2 moves to dispatcher 1,
receiver 1 leaves, receivers 3 and 4 join dispatcher 0, dispatcher 1 is emptied. -/
def sampleCalls : List Call :=
  [Call.Subscribe 0 1 false, Call.Subscribe 0 2 false, Call.Subscribe 1 2 true,
    Call.Unsubscribe 0 1, Call.Subscribe 0 3 false, Call.Subscribe 0 4 false,
    Call.UnsubscribeAll 1 1]

end Representation

end Dispatcher

/-!
# Resource pool (Source/System/ResourcePool.hpp)

`ResourcePool<Type>` keeps a default resource and a map from names to shared pointers.
A shared pointer is an `Option Nat` (`none` is null, `some o` owns object `o`); the map
is an association list in iteration order. The resource type's `Load` and the number of
outside owners of an object are parameters.
-/

namespace System

/-- A `std::shared_ptr<Type>`: null or the address of the owned object. -/
abbrev ResourcePtr := Option Nat

/-- The members of `ResourcePool<Type>` (`m_default`, `m_resources`), the number of
objects created so far by `std::make_shared<Type>()` (the next fresh address), and a
ghost log of the names on which the resource type's `Load` was invoked. -/
structure ResourcePool where
  m_default : ResourcePtr
  m_resources : List (String × ResourcePtr)
  allocated : Nat
  loads : List String
deriving DecidableEq

/-- The lookup `m_resources.find(name)` of `std::unordered_map`: the stored pointer, or
`none` for `m_resources.end()`. -/
def find (name : String) : List (String × ResourcePtr) → Option ResourcePtr
  | [] => none
  | e :: rest => if e.1 = name then some e.2 else find name rest

/-- The constructor `ResourcePool::ResourcePool()` (ResourcePool.hpp 94-98):
`m_default(std::make_shared<Type>())`, an empty map. -/
def ResourcePool.constructor : ResourcePool :=
  { m_default := some 0, m_resources := [], allocated := 1, loads := [] }

/-- `ResourcePool::SetDefault(resource)` (ResourcePool.hpp 107-113). The `Verify` of line
110 tests `it->second`, a name that is not declared in this function, so its outcome is
the parameter `check`; then `m_default = resource`. -/
def ResourcePool.SetDefault (check : Bool) (pool : ResourcePool) (resource : ResourcePtr) :
    Except Dispatcher.Fault ResourcePool :=
  if !check then .error Dispatcher.Fault.verify
  else .ok { pool with m_default := resource }

/-- `ResourcePool::GetDefault()` (ResourcePool.hpp 115-121), with the same `Verify`. -/
def ResourcePool.GetDefault (check : Bool) (pool : ResourcePool) :
    Except Dispatcher.Fault ResourcePtr :=
  if !check then .error Dispatcher.Fault.verify
  else .ok pool.m_default

/-- `ResourcePool::Load(name, arguments...)` (ResourcePool.hpp 123-148). `TypeLoad name`
is the value returned by `resource->Load(name, arguments...)` on the freshly made
object. Returns the pointer handed to the caller and the pool afterwards. -/
def ResourcePool.Load (TypeLoad : String → Bool) (pool : ResourcePool) (name : String) :
    Except Dispatcher.Fault (ResourcePtr × ResourcePool) :=
  -- auto it = m_resources.find(name); if(it != m_resources.end())
  match find name pool.m_resources with
  | some found =>
    -- Assert(it->second != nullptr, ...); return it->second;
    if found = none then .error Dispatcher.Fault.assert
    else .ok (found, pool)
  | none =>
    -- std::shared_ptr<Type> resource = std::make_shared<Type>();
    -- if(!resource->Load(name, arguments...)) return m_default;
    if !TypeLoad name then
      .ok (pool.m_default,
        { pool with allocated := pool.allocated + 1, loads := pool.loads ++ [name] })
    else
      -- m_resources.emplace(name, std::move(resource)): the name was not found, so the
      -- insertion takes place and Assert(result.second, ...) holds;
      -- return result.first->second;
      .ok (some pool.allocated,
        { pool with m_resources := pool.m_resources ++ [(name, some pool.allocated)],
                    allocated := pool.allocated + 1, loads := pool.loads ++ [name] })

/-- The value of `std::shared_ptr::use_count()` for a pointer stored in the map: 0 for a
null pointer, otherwise the map's own reference plus `holders o`, the number of other
shared pointers to the object (outside the map) at the time of the call. -/
def use_count (holders : Nat → Nat) : ResourcePtr → Nat
  | none => 0
  | some o => 1 + holders o

/-- The loop of `ResourcePool::ReleaseUnused()` (ResourcePool.hpp 154-172) over the
entries in iteration order: the entries kept and the names logged as released. Erasing
an entry is taken not to change the `use_count` of the entries still to be visited. -/
def ResourcePool.ReleaseUnused.loop (holders : Nat → Nat) :
    List (String × ResourcePtr) → List (String × ResourcePtr) × List String
  | [] => ([], [])
  | e :: rest =>
    -- if(it->second.use_count() == 1) { it = m_resources.erase(it); LogInfo() ... }
    if use_count holders e.2 = 1 then
      ((ResourcePool.ReleaseUnused.loop holders rest).1,
        e.1 :: (ResourcePool.ReleaseUnused.loop holders rest).2)
    -- else ++it;
    else
      (e :: (ResourcePool.ReleaseUnused.loop holders rest).1,
        (ResourcePool.ReleaseUnused.loop holders rest).2)

/-- `ResourcePool::ReleaseUnused()` (ResourcePool.hpp 150-173): the pool afterwards and
the names logged. -/
def ResourcePool.ReleaseUnused (holders : Nat → Nat) (pool : ResourcePool) :
    ResourcePool × List String :=
  ({ pool with m_resources := (ResourcePool.ReleaseUnused.loop holders pool.m_resources).1 },
    (ResourcePool.ReleaseUnused.loop holders pool.m_resources).2)

/-- The invariant of the map: names are distinct (it is a map) and no stored pointer is
null (only results of `std::make_shared` are stored). -/
def ResourcePool.Valid (pool : ResourcePool) : Prop :=
  (pool.m_resources.map Prod.fst).Nodup ∧ ∀ e ∈ pool.m_resources, e.2 ≠ none

instance ResourcePool.Valid.decidable (pool : ResourcePool) : Decidable pool.Valid :=
  inferInstanceAs (Decidable ((pool.m_resources.map Prod.fst).Nodup ∧
    ∀ e ∈ pool.m_resources, e.2 ≠ none))

/-- A sample pool: two textures loaded, a third name that failed to load before. -/
def samplePool : ResourcePool :=
  { m_default := some 0
    m_resources := [("checkerboard.png", some 1), ("grass.png", some 3)]
    allocated := 4
    loads := ["checkerboard.png", "missing.png", "grass.png"] }

/-- Sample outside owners: object 1 is held by one other shared pointer, the others by
none. -/
def sampleHolders (o : Nat) : Nat := if o = 1 then 1 else 0

end System

/-!
# Texture loading (Source/Graphics/Texture.cpp)

Two parts of `Texture::Load` that are free of library calls: the treatment of colour
type and bit depth (lines 139-186) and the set-up of the row pointers (lines 188-204).
`png_uint_32` values are naturals with arithmetic modulo `2 ^ 32`.
-/

namespace Graphics

/-- The value of `PNG_COLOR_TYPE_GRAY` in libpng's `png.h`. -/
def PNG_COLOR_TYPE_GRAY : Nat := 0

/-- The value of `PNG_COLOR_TYPE_RGB` in libpng's `png.h`. -/
def PNG_COLOR_TYPE_RGB : Nat := 2

/-- The value of `PNG_COLOR_TYPE_PALETTE` in libpng's `png.h`. -/
def PNG_COLOR_TYPE_PALETTE : Nat := 3

/-- The value of `PNG_COLOR_TYPE_GRAY_ALPHA` in libpng's `png.h`. -/
def PNG_COLOR_TYPE_GRAY_ALPHA : Nat := 4

/-- The value of `PNG_COLOR_TYPE_RGBA` (`PNG_COLOR_TYPE_RGB_ALPHA`) in libpng's `png.h`. -/
def PNG_COLOR_TYPE_RGBA : Nat := 6

/-- The transformations `Texture::Load` asks the decoder for. -/
structure Transforms where
  expand_gray_1_2_4_to_8 : Bool
  palette_to_rgb : Bool
  tRNS_to_alpha : Bool
  strip_16 : Bool
deriving DecidableEq

/-- The two rejections of lines 139-186, by their log message. -/
inductive LoadError where
  | UnsupportedImageFormat
  | UnsupportedImageDepthSize
deriving DecidableEq

/-- Lines 139-186 of `Texture::Load`: from the colour type, bit depth and channel count
read from the file (and whether the palette has transparency, `png_get_valid(...,
PNG_INFO_tRNS)`) to the depth and channel count the function goes on with and the
transformations requested, or a rejection. -/
def Texture.Load.process (format depth channels : Nat) (tRNS : Bool) :
    Except LoadError (Nat × Nat × Transforms) :=
  -- switch(format)
  let afterSwitch : Except LoadError (Nat × Nat × Transforms) :=
    if format = PNG_COLOR_TYPE_GRAY ∨ format = PNG_COLOR_TYPE_GRAY_ALPHA then
      -- if(depth < 8) { png_set_expand_gray_1_2_4_to_8(png_read_ptr); depth = 8; }
      if depth < 8 then .ok (8, channels, ⟨true, false, false, false⟩)
      else .ok (depth, channels, ⟨false, false, false, false⟩)
    else if format = PNG_COLOR_TYPE_PALETTE then
      -- png_set_palette_to_rgb(png_read_ptr); channels = 3;
      -- if(png_get_valid(...)) { png_set_tRNS_to_alpha(png_read_ptr); channels += 1; }
      if tRNS then .ok (depth, 4, ⟨false, true, true, false⟩)
      else .ok (depth, 3, ⟨false, true, false, false⟩)
    else if format = PNG_COLOR_TYPE_RGB ∨ format = PNG_COLOR_TYPE_RGBA then
      .ok (depth, channels, ⟨false, false, false, false⟩)
    else
      -- default: LogError() << "Unsupported image format!"; return false;
      .error LoadError.UnsupportedImageFormat
  match afterSwitch with
  | .error e => .error e
  | .ok (depth1, channels1, t) =>
    -- if(depth == 16) { png_set_strip_16(png_read_ptr); }
    let t1 : Transforms := if depth1 = 16 then { t with strip_16 := true } else t
    -- if(depth != 8) { LogError() << "Unsupported image depth size!"; return false; }
    if depth1 ≠ 8 then .error LoadError.UnsupportedImageDepthSize
    else .ok (depth1, channels1, t1)

/-- Reduction of a natural to a `png_uint_32`. -/
def u32 (n : Nat) : Nat := n % 2 ^ 32

/-- Subtraction of `png_uint_32` values. -/
def sub32 (a b : Nat) : Nat := (a + 2 ^ 32 - b) % 2 ^ 32

/-- The size `width * height * channels` of the data buffer (line 190), computed in
`png_uint_32`. -/
def Texture.Load.dataSize (width height channels : Nat) : Nat :=
  u32 (u32 (width * height) * channels)

/-- The loop of lines 195-204; the arguments after the fuel are `i` and the array
`png_row_ptrs`, whose entries are offsets into the data buffer (`none` for an entry not
yet assigned). -/
def Texture.Load.rowLoop (height png_stride : Nat) :
    Nat → Nat → List (Option Nat) → Option (List (Option Nat))
  | 0, i, png_row_ptrs => if i < height then none else some png_row_ptrs
  | fuel + 1, i, png_row_ptrs =>
    if i < height then
      -- png_row_index = height - i - 1; png_offset = i * png_stride;
      -- png_row_ptrs[png_row_index] = png_data_ptr + png_offset;
      Texture.Load.rowLoop height png_stride fuel (u32 (i + 1))
        (png_row_ptrs.set (sub32 (sub32 height i) 1) (some (u32 (i * png_stride))))
    else some png_row_ptrs

/-- Lines 188-204 of `Texture::Load`: `png_row_ptrs = new png_bytep[height]`,
`png_stride = width * channels`, then the loop. -/
def Texture.Load.rowPointers (fuel width height channels : Nat) : Option (List (Option Nat)) :=
  Texture.Load.rowLoop height (u32 (width * channels)) fuel 0 (List.replicate height none)

end Graphics

/-!
# Log outputs (Source/Logger/Output.cpp)

A stream is the list of the texts written to it. The texts composed by `DefaultFormat`
are parameters.
-/

namespace Logger

/-- The texts returned by `DefaultFormat::ComposeSessionStart()` and
`DefaultFormat::ComposeSessionEnd()` (Format.hpp is not among the sources), taken as
parameters. -/
structure DefaultFormat where
  ComposeSessionStart : String
  ComposeSessionEnd : String
deriving DecidableEq

/-- The member `m_file` of `FileOutput`: whether the stream is open and what was written
to the file. -/
structure FileOutput where
  is_open : Bool
  written : List String
deriving DecidableEq

/-- The constructor `FileOutput::FileOutput()` (Output.cpp 12-14). -/
def FileOutput.constructor : FileOutput := { is_open := false, written := [] }

/-- `FileOutput::Open(filename)` (Output.cpp 30-50); `opens` tells whether
`m_file.open(filename)` succeeds. -/
def FileOutput.Open (fmt : DefaultFormat) (opens : Bool) (f : FileOutput) :
    Except Dispatcher.Fault (Bool × FileOutput) :=
  -- Verify(!m_file.is_open(), ...)
  if f.is_open then .error Dispatcher.Fault.verify
  else if !opens then .ok (false, f)
  -- m_file << DefaultFormat::ComposeSessionStart();
  else .ok (true, { is_open := true, written := f.written ++ [fmt.ComposeSessionStart] })

/-- The destructor `FileOutput::~FileOutput()` (Output.cpp 16-28). -/
def FileOutput.destructor (fmt : DefaultFormat) (f : FileOutput) : FileOutput :=
  if f.is_open then
    -- m_file << DefaultFormat::ComposeSessionEnd(); m_file.close();
    { is_open := false, written := f.written ++ [fmt.ComposeSessionEnd] }
  else f

/-- The constructor `ConsoleOutput::ConsoleOutput()` (Output.cpp 65-70); the argument and
the result are what was written to `std::cout`. -/
def ConsoleOutput.constructor (fmt : DefaultFormat) (cout : List String) : List String :=
  -- std::cout << DefaultFormat::ComposeSessionStart();
  cout ++ [fmt.ComposeSessionStart]

/-- The destructor `ConsoleOutput::~ConsoleOutput()` (Output.cpp 72-77). -/
def ConsoleOutput.destructor (fmt : DefaultFormat) (cout : List String) : List String :=
  -- (comment in the source: "Write session end.")
  -- std::cout << DefaultFormat::ComposeSessionStart();
  cout ++ [fmt.ComposeSessionStart]

/-- Sample texts. -/
def sampleFormat : DefaultFormat :=
  { ComposeSessionStart := "Session started.", ComposeSessionEnd := "Session ended." }

end Logger

namespace Dispatcher

section Lemmas

variable {α : Type}

@[simp] theorem receivers_setDispatcher (m : Memory α) (r j : Nat) (v : Option Nat) :
    (m.setDispatcher r v).receivers j =
      if j = r then { m.receivers r with m_dispatcher := v } else m.receivers j := rfl

@[simp] theorem receivers_setPrevious (m : Memory α) (r j : Nat) (v : Option Nat) :
    (m.setPrevious r v).receivers j =
      if j = r then { m.receivers r with m_previous := v } else m.receivers j := rfl

@[simp] theorem receivers_setNext (m : Memory α) (r j : Nat) (v : Option Nat) :
    (m.setNext r v).receivers j =
      if j = r then { m.receivers r with m_next := v } else m.receivers j := rfl

@[simp] theorem receivers_setBegin (m : Memory α) (d : Nat) (v : Option Nat) :
    (m.setBegin d v).receivers = m.receivers := rfl

@[simp] theorem receivers_setEnd (m : Memory α) (d : Nat) (v : Option Nat) :
    (m.setEnd d v).receivers = m.receivers := rfl

@[simp] theorem receivers_logCall (m : Memory α) (r : Nat) (x : α) :
    (m.logCall r x).receivers = m.receivers := rfl

@[simp] theorem dispatchers_setDispatcher (m : Memory α) (r : Nat) (v : Option Nat) :
    (m.setDispatcher r v).dispatchers = m.dispatchers := rfl

@[simp] theorem dispatchers_setPrevious (m : Memory α) (r : Nat) (v : Option Nat) :
    (m.setPrevious r v).dispatchers = m.dispatchers := rfl

@[simp] theorem dispatchers_setNext (m : Memory α) (r : Nat) (v : Option Nat) :
    (m.setNext r v).dispatchers = m.dispatchers := rfl

@[simp] theorem dispatchers_setBegin (m : Memory α) (d j : Nat) (v : Option Nat) :
    (m.setBegin d v).dispatchers j =
      if j = d then { m.dispatchers d with m_begin := v } else m.dispatchers j := rfl

@[simp] theorem dispatchers_setEnd (m : Memory α) (d j : Nat) (v : Option Nat) :
    (m.setEnd d v).dispatchers j =
      if j = d then { m.dispatchers d with m_end := v } else m.dispatchers j := rfl

@[simp] theorem dispatchers_logCall (m : Memory α) (r : Nat) (x : α) :
    (m.logCall r x).dispatchers = m.dispatchers := rfl

@[simp] theorem calls_setDispatcher (m : Memory α) (r : Nat) (v : Option Nat) :
    (m.setDispatcher r v).calls = m.calls := rfl

@[simp] theorem calls_setPrevious (m : Memory α) (r : Nat) (v : Option Nat) :
    (m.setPrevious r v).calls = m.calls := rfl

@[simp] theorem calls_setNext (m : Memory α) (r : Nat) (v : Option Nat) :
    (m.setNext r v).calls = m.calls := rfl

@[simp] theorem calls_setBegin (m : Memory α) (d : Nat) (v : Option Nat) :
    (m.setBegin d v).calls = m.calls := rfl

@[simp] theorem calls_setEnd (m : Memory α) (d : Nat) (v : Option Nat) :
    (m.setEnd d v).calls = m.calls := rfl

@[simp] theorem calls_logCall (m : Memory α) (r : Nat) (x : α) :
    (m.logCall r x).calls = m.calls ++ [(r, x)] := rfl

@[simp] theorem receivers_clearReceiver (m : Memory α) (r j : Nat) :
    (m.clearReceiver r).receivers j = if j = r then ⟨none, none, none⟩ else m.receivers j := by
  unfold Memory.clearReceiver
  by_cases h : j = r <;> simp [h]

@[simp] theorem dispatchers_clearReceiver (m : Memory α) (r : Nat) :
    (m.clearReceiver r).dispatchers = m.dispatchers := rfl

@[simp] theorem calls_clearReceiver (m : Memory α) (r : Nat) :
    (m.clearReceiver r).calls = m.calls := rfl

theorem Seg_nil (m : Memory α) (d : Nat) (p n : Option Nat) : Seg m d p [] n := trivial

theorem Seg_cons (m : Memory α) (d : Nat) (p n : Option Nat) (r : Nat) (rest : List Nat) :
    Seg m d p (r :: rest) n ↔
      m.receivers r = ⟨some d, p, rest.head?.or n⟩ ∧ Seg m d (some r) rest n := Iff.rfl

/-- A run only depends on the receivers it contains. -/
theorem Seg_frame {m m1 : Memory α} {d : Nat} {l : List Nat}
    (h : ∀ x ∈ l, m1.receivers x = m.receivers x) :
    ∀ {p n : Option Nat}, Seg m d p l n → Seg m1 d p l n := by
  induction l with
  | nil => intro p n _; trivial
  | cons a rest ih =>
    intro p n hs
    rw [Seg_cons] at hs ⊢
    refine ⟨?_, ih (fun x hx => h x (List.mem_cons_of_mem _ hx)) hs.2⟩
    rw [h a (List.mem_cons_self _ _)]
    exact hs.1

theorem Seg_append (m : Memory α) (d : Nat) (l1 l2 : List Nat) :
    ∀ (p n : Option Nat), Seg m d p (l1 ++ l2) n ↔
      Seg m d p l1 (l2.head?.or n) ∧ Seg m d (l1.getLast?.or p) l2 n := by
  induction l1 with
  | nil => intro p n; simp [Seg_nil]
  | cons a rest ih =>
    intro p n
    rw [List.cons_append, Seg_cons, Seg_cons, ih (some a) n]
    have h1 : (rest ++ l2).head?.or n = rest.head?.or (l2.head?.or n) := by
      cases rest <;> simp
    have h2 : (a :: rest).getLast?.or p = rest.getLast?.or (some a) := by
      rcases List.eq_nil_or_concat rest with h | ⟨L, b, h⟩
      · subst h; simp
      · subst h
        rw [List.concat_eq_append, ← List.cons_append, List.getLast?_concat,
          List.getLast?_concat]
        rfl
    rw [h1, h2]
    tauto

/-- Every receiver of a run has the dispatcher as back-reference. -/
theorem Seg_dispatcher {m : Memory α} {d : Nat} {l : List Nat} :
    ∀ {p n : Option Nat}, Seg m d p l n → ∀ x ∈ l, (m.receivers x).m_dispatcher = some d := by
  induction l with
  | nil => intro p n _ x hx; cases hx
  | cons a rest ih =>
    intro p n hs x hx
    rw [Seg_cons] at hs
    rcases List.mem_cons.mp hx with h | h
    · subst h; rw [hs.1]
    · exact ih hs.2 x h

/-- Rewriting the next link of the last receiver of a run. -/
theorem Seg_concat_next {m m1 : Memory α} {d : Nat} {L : List Nat} {a : Nat}
    {p n : Option Nat} (v : Option Nat)
    (hL : ∀ x ∈ L, m1.receivers x = m.receivers x)
    (ha : m1.receivers a = { m.receivers a with m_next := v })
    (hs : Seg m d p (L ++ [a]) n) : Seg m1 d p (L ++ [a]) v := by
  rw [Seg_append] at hs ⊢
  refine ⟨Seg_frame hL hs.1, ?_⟩
  have h2 := hs.2
  rw [Seg_cons] at h2 ⊢
  refine ⟨?_, trivial⟩
  rw [ha, h2.1]
  rfl

/-- Rewriting the previous link of the first receiver of a run. -/
theorem Seg_cons_previous {m m1 : Memory α} {d : Nat} {rest : List Nat} {b : Nat}
    {p n : Option Nat} (q : Option Nat)
    (hL : ∀ x ∈ rest, m1.receivers x = m.receivers x)
    (hb : m1.receivers b = { m.receivers b with m_previous := q })
    (hs : Seg m d p (b :: rest) n) : Seg m1 d q (b :: rest) n := by
  rw [Seg_cons] at hs ⊢
  refine ⟨?_, Seg_frame hL hs.2⟩
  rw [hb, hs.1]

/-- A well-formed list only depends on its dispatcher and its own receivers. -/
theorem SubscriberList_frame {m m1 : Memory α} {d : Nat} {l : List Nat}
    (hr : ∀ x ∈ l, m1.receivers x = m.receivers x)
    (hd : m1.dispatchers d = m.dispatchers d)
    (h : SubscriberList m d l) : SubscriberList m1 d l := by
  obtain ⟨h1, h2, h3, h4⟩ := h
  exact ⟨h1, by rw [hd]; exact h2, by rw [hd]; exact h3, Seg_frame hr h4⟩

/-- Every member of a well-formed list has the dispatcher as back-reference. -/
theorem SubscriberList_dispatcher {m : Memory α} {d : Nat} {l : List Nat}
    (h : SubscriberList m d l) : ∀ x ∈ l, (m.receivers x).m_dispatcher = some d :=
  Seg_dispatcher h.2.2.2

/-- A receiver whose back-reference is not `d` is not in the list of `d`. -/
theorem SubscriberList_not_mem {m : Memory α} {d : Nat} {l : List Nat}
    (h : SubscriberList m d l) {r : Nat} (hr : (m.receivers r).m_dispatcher ≠ some d) :
    r ∉ l :=
  fun hx => hr (SubscriberList_dispatcher h r hx)

/-- The lists of two different dispatchers share no receiver. -/
theorem SubscriberList_disjoint {m : Memory α} {a b : Nat} {la lb : List Nat}
    (ha : SubscriberList m a la) (hb : SubscriberList m b lb) (hab : a ≠ b) :
    ∀ x ∈ la, x ∉ lb := by
  intro x hxa hxb
  have h1 := SubscriberList_dispatcher ha x hxa
  have h2 := SubscriberList_dispatcher hb x hxb
  rw [h1] at h2
  exact hab (Option.some.inj h2)

/-- The insertion part of `Subscribe` on a well-formed list and an unsubscribed receiver:
it succeeds, appends the receiver at the tail and touches nothing outside the list. -/
theorem Subscribe_link_spec (m : Memory α) (d r : Nat) (l : List Nat)
    (hl : SubscriberList m d l) (hr : Unsubscribed m r) :
    ∃ m1, DispatcherBase.Subscribe.link m d r = .ok (true, m1) ∧
      SubscriberList m1 d (l ++ [r]) ∧
      (m1.receivers r).m_dispatcher = some d ∧
      (∀ j, j ≠ r → j ∉ l → m1.receivers j = m.receivers j) ∧
      (∀ j, j ≠ d → m1.dispatchers j = m.dispatchers j) ∧
      m1.calls = m.calls := by
  have hrl : r ∉ l := SubscriberList_not_mem hl (by rw [hr]; simp)
  unfold Unsubscribed at hr
  obtain ⟨hnd, hb, he, hs⟩ := hl
  rcases List.eq_nil_or_concat l with h | ⟨L, t, h⟩
  · subst h
    simp only [List.head?_nil, List.getLast?_nil] at hb he
    refine ⟨((m.setBegin d (some r)).setEnd d (some r)).setDispatcher r (some d),
      by simp [DispatcherBase.Subscribe.link, hr, hb, he], ?_, by simp, ?_, ?_, rfl⟩
    · refine ⟨by simp, by simp, by simp, ?_⟩
      simp [Seg, hr]
    · intro j hj _
      simp [hj]
    · intro j hj
      simp [hj]
  · rw [List.concat_eq_append] at h
    subst h
    have hrt : r ≠ t := fun e => hrl (by simp [e])
    have hrL : r ∉ L := fun e => hrl (by simp [e])
    have htL : t ∉ L := by
      have := List.nodup_append.mp hnd
      intro e
      exact this.2.2 e (by simp)
    rw [List.getLast?_concat] at he
    obtain ⟨b, hb1⟩ : ∃ b, (m.dispatchers d).m_begin = some b := by
      rw [hb]; cases L <;> simp
    refine ⟨(((m.setNext t (some r)).setPrevious r (some t)).setEnd d (some r)).setDispatcher r
      (some d), by simp [DispatcherBase.Subscribe.link, hr, hb1, he], ?_, by simp, ?_, ?_, rfl⟩
    · refine ⟨?_, ?_, ?_, ?_⟩
      · rw [List.nodup_append]
        refine ⟨hnd, by simp, ?_⟩
        intro x hx hx1
        simp at hx1
        subst hx1
        exact hrl hx
      · simp only [dispatchers_setDispatcher, dispatchers_setEnd, dispatchers_setPrevious,
          dispatchers_setNext, if_true]
        rw [hb]
        cases L <;> simp
      · simp [List.getLast?_concat]
      · rw [Seg_append]
        constructor
        · refine Seg_concat_next (some r) ?_ ?_ hs
          · intro x hx
            have hxr : x ≠ r := fun e => hrL (e ▸ hx)
            have hxt : x ≠ t := fun e => htL (e ▸ hx)
            simp [hxr, hxt]
          · simp [hrt.symm]
        · rw [Seg_cons]
          refine ⟨?_, trivial⟩
          simp [hrt, hr, List.getLast?_concat]
    · intro j hj hjl
      have hjt : j ≠ t := fun e => hjl (by simp [e])
      simp [hj, hjt]
    · intro j hj
      simp [hj]

/-- Shape of a well-formed list around one of its members: the member's record and the
runs before and after it. -/
theorem SubscriberList_split {m : Memory α} {d r : Nat} {pre post : List Nat}
    (hl : SubscriberList m d (pre ++ r :: post)) :
    r ∉ pre ∧ r ∉ post ∧ (∀ x ∈ pre, x ∉ post) ∧ pre.Nodup ∧ post.Nodup ∧
      m.receivers r = ⟨some d, pre.getLast?, post.head?⟩ ∧
      Seg m d none pre (some r) ∧ Seg m d (some r) post none := by
  obtain ⟨hnd, _, _, hs⟩ := hl
  rw [List.nodup_append] at hnd
  obtain ⟨hn1, hn2, hdis⟩ := hnd
  rw [List.nodup_cons] at hn2
  rw [Seg_append, Seg_cons] at hs
  refine ⟨fun h => hdis h (by simp), hn2.1,
    fun x hx hx1 => hdis hx (List.mem_cons_of_mem _ hx1), hn1, hn2.2, ?_, ?_, hs.2.2⟩
  · rw [hs.2.1]; simp
  · simpa using hs.1

theorem head?_append_cons_ne {pre post : List Nat} {r : Nat} (h : r ∉ pre) (hne : pre ≠ []) :
    (pre ++ r :: post).head? ≠ some r := by
  cases pre with
  | nil => exact absurd rfl hne
  | cons a rest =>
    intro e
    simp at e
    subst e
    exact h (by simp)

theorem getLast?_append_cons_ne {pre post : List Nat} {r : Nat} (h : r ∉ post)
    (hne : post ≠ []) : (pre ++ r :: post).getLast? ≠ some r := by
  intro e
  have h1 : (pre ++ r :: post).getLast? = post.getLast? := by
    rcases List.eq_nil_or_concat post with h0 | ⟨L, b, h0⟩
    · exact absurd h0 hne
    · subst h0
      rw [List.concat_eq_append, ← List.cons_append, ← List.append_assoc,
        List.getLast?_concat, List.getLast?_concat]
  rw [h1] at e
  exact h (List.mem_of_getLast?_eq_some e)

/-- `Unsubscribe` on a member of a well-formed list: it succeeds, the list becomes the
old list with the member erased, the member is left with three null fields, and
nothing outside the list is touched. -/
theorem Unsubscribe_spec (m : Memory α) (d r : Nat) (l : List Nat)
    (hl : SubscriberList m d l) (hr : r ∈ l) :
    ∃ m1, DispatcherBase.Unsubscribe m d r = .ok m1 ∧
      SubscriberList m1 d (l.erase r) ∧
      m1.receivers r = ⟨none, none, none⟩ ∧
      (∀ j, j ∉ l → m1.receivers j = m.receivers j) ∧
      (∀ j, j ≠ d → m1.dispatchers j = m.dispatchers j) ∧
      m1.calls = m.calls := by
  obtain ⟨pre, post, hsplit⟩ := List.append_of_mem hr
  subst hsplit
  obtain ⟨hrpre, hrpost, hdis, hnpre, hnpost, hR, hspre, hspost⟩ := SubscriberList_split hl
  obtain ⟨_, hb, he, _⟩ := hl
  have hD : (m.receivers r).m_dispatcher = some d := by rw [hR]
  have hP : (m.receivers r).m_previous = pre.getLast? := by rw [hR]
  have hN : (m.receivers r).m_next = post.head? := by rw [hR]
  have herase : (pre ++ r :: post).erase r = pre ++ post := by
    rw [List.erase_append_right _ hrpre, List.erase_cons_head]
  rw [herase]
  rcases List.eq_nil_or_concat pre with hpre | ⟨P, a, hpre⟩
  · subst hpre
    cases post with
    | nil =>
      simp only [List.nil_append, List.head?_cons, List.getLast?_singleton] at hb he
      refine ⟨((m.setBegin d none).setEnd d none).clearReceiver r,
        by simp [DispatcherBase.Unsubscribe, hD, hb, he], ?_, by simp, ?_, ?_, rfl⟩
      · exact ⟨by simp, by simp, by simp, trivial⟩
      · intro j hj
        have hjr : j ≠ r := fun e => hj (by simp [e])
        simp [hjr]
      · intro j hj
        simp [hj]
    | cons b Q =>
      have he1 : (m.dispatchers d).m_end ≠ some r := by
        rw [he]; exact getLast?_append_cons_ne hrpost (by simp)
      simp only [List.nil_append, List.head?_cons] at hb
      simp only [List.head?_cons] at hN
      have hbr : b ≠ r := fun e => hrpost (by simp [e])
      refine ⟨((m.setBegin d (some b)).setPrevious b none).clearReceiver r,
        by simp [DispatcherBase.Unsubscribe, hD, hb, he1, hN], ?_, by simp, ?_, ?_, rfl⟩
      · refine ⟨hnpost, by simp, ?_, ?_⟩
        · simp only [dispatchers_clearReceiver, dispatchers_setPrevious, dispatchers_setBegin,
            if_true, List.nil_append]
          rw [he]
          simp [List.getLast?_cons_cons]
        · refine Seg_cons_previous none ?_ ?_ hspost
          · intro x hx
            have hxr : x ≠ r := fun e => hrpost (by simp [← e, hx])
            have hxb : x ≠ b := fun e => (List.nodup_cons.mp hnpost).1 (e ▸ hx)
            simp [hxr, hxb]
          · simp [hbr]
      · intro j hj
        have hjr : j ≠ r := fun e => hj (by simp [e])
        have hjb : j ≠ b := fun e => hj (by simp [e])
        simp [hjr, hjb]
      · intro j hj
        simp [hj]
  · rw [List.concat_eq_append] at hpre
    subst hpre
    have hb1 : (m.dispatchers d).m_begin ≠ some r := by
      rw [hb]; exact head?_append_cons_ne hrpre (by simp)
    rw [List.getLast?_concat] at hP
    have har : a ≠ r := fun e => hrpre (by simp [e])
    have haP : a ∉ P := fun e => (List.nodup_append.mp hnpre).2.2 e (by simp)
    cases post with
    | nil =>
      have he1 : (m.dispatchers d).m_end = some r := by
        rw [he]; simp [List.getLast?_concat]
      refine ⟨((m.setEnd d (some a)).setNext a none).clearReceiver r,
        by simp [DispatcherBase.Unsubscribe, hD, hb1, he1, hP], ?_, by simp, ?_, ?_, rfl⟩
      · refine ⟨by simpa using hnpre, ?_, by simp [List.getLast?_concat], ?_⟩
        · simp only [dispatchers_clearReceiver, dispatchers_setNext, dispatchers_setEnd, if_true]
          rw [hb]
          cases P <;> simp
        · rw [List.append_nil]
          refine Seg_concat_next none ?_ ?_ hspre
          · intro x hx
            have hxr : x ≠ r := fun e => hrpre (by simp [← e, hx])
            have hxa : x ≠ a := fun e => haP (e ▸ hx)
            simp [hxr, hxa]
          · simp [har]
      · intro j hj
        have hjr : j ≠ r := fun e => hj (by simp [e])
        have hja : j ≠ a := fun e => hj (by simp [e])
        simp [hjr, hja]
      · intro j hj
        simp [hj]
    | cons b Q =>
      have he1 : (m.dispatchers d).m_end ≠ some r := by
        rw [he]; exact getLast?_append_cons_ne hrpost (by simp)
      simp only [List.head?_cons] at hN
      have hbr : b ≠ r := fun e => hrpost (by simp [e])
      have hab : a ≠ b := fun e => hdis a (by simp) (by simp [e])
      refine ⟨((m.setNext a (some b)).setPrevious b (some a)).clearReceiver r,
        by simp [DispatcherBase.Unsubscribe, hD, hb1, he1, hP, hN], ?_, by simp, ?_, ?_, rfl⟩
      · refine ⟨?_, ?_, ?_, ?_⟩
        · rw [List.nodup_append]
          exact ⟨hnpre, hnpost, fun x hx hx1 => hdis x hx hx1⟩
        · simp only [dispatchers_clearReceiver, dispatchers_setNext, dispatchers_setPrevious]
          rw [hb]
          cases P <;> simp
        · simp only [dispatchers_clearReceiver, dispatchers_setNext, dispatchers_setPrevious]
          rw [he]
          simp [List.getLast?_cons_cons]
        · rw [Seg_append]
          constructor
          · refine Seg_concat_next (some b) ?_ ?_ hspre
            · intro x hx
              have hxr : x ≠ r := fun e => hrpre (by simp [← e, hx])
              have hxa : x ≠ a := fun e => haP (e ▸ hx)
              have hxb : x ≠ b := fun e => hdis x (by simp [hx]) (by simp [e])
              simp [hxr, hxa, hxb]
            · simp [har, hab]
          · rw [List.getLast?_concat]
            refine Seg_cons_previous (some a) ?_ ?_ hspost
            · intro x hx
              have hxr : x ≠ r := fun e => hrpost (by simp [← e, hx])
              have hxb : x ≠ b := fun e => (List.nodup_cons.mp hnpost).1 (e ▸ hx)
              have hxa : x ≠ a := fun e => hdis a (by simp) (by simp [← e, hx])
              simp [hxr, hxa, hxb]
            · simp [hbr, hab.symm]
      · intro j hj
        have hjr : j ≠ r := fun e => hj (by simp [e])
        have hja : j ≠ a := fun e => hj (by simp [e])
        have hjb : j ≠ b := fun e => hj (by simp [e])
        simp [hjr, hja, hjb]
      · intro j hj
        simp [hj]

/-- `Subscribe` of a receiver with a null back-reference is the insertion part. -/
theorem Subscribe_of_null (m : Memory α) (d r : Nat) (replace : Bool)
    (h : (m.receivers r).m_dispatcher = none) :
    DispatcherBase.Subscribe m d r replace = DispatcherBase.Subscribe.link m d r := by
  unfold DispatcherBase.Subscribe
  rw [h]

/-- `Subscribe` on a well-formed list and an unsubscribed receiver. -/
theorem Subscribe_spec (m : Memory α) (d r : Nat) (l : List Nat) (replace : Bool)
    (hl : SubscriberList m d l) (hr : Unsubscribed m r) :
    ∃ m1, DispatcherBase.Subscribe m d r replace = .ok (true, m1) ∧
      SubscriberList m1 d (l ++ [r]) ∧
      (m1.receivers r).m_dispatcher = some d ∧
      (∀ j, j ≠ r → j ∉ l → m1.receivers j = m.receivers j) ∧
      (∀ j, j ≠ d → m1.dispatchers j = m.dispatchers j) ∧
      m1.calls = m.calls := by
  rw [Subscribe_of_null m d r replace (by rw [hr])]
  exact Subscribe_link_spec m d r l hl hr

/-- Subscribing distinct unsubscribed receivers one after another appends them in that
order; every call returns `true`. -/
theorem subscribeInOrder_spec (d : Nat) (rs : List Nat) :
    ∀ (m : Memory α) (l : List Nat), SubscriberList m d l → rs.Nodup →
      (∀ r ∈ rs, Unsubscribed m r) →
      ∃ m1, subscribeInOrder m d rs = .ok (List.replicate rs.length true, m1) ∧
        SubscriberList m1 d (l ++ rs) ∧ m1.calls = m.calls := by
  induction rs with
  | nil =>
    intro m l hl _ _
    exact ⟨m, rfl, by simpa using hl, rfl⟩
  | cons r rest ih =>
    intro m l hl hnd hun
    rw [List.nodup_cons] at hnd
    obtain ⟨m1, h1, hl1, _, hfr, _, hc1⟩ :=
      Subscribe_spec m d r l false hl (hun r (List.mem_cons_self _ _))
    have hun1 : ∀ x ∈ rest, Unsubscribed m1 x := by
      intro x hx
      have hxu := hun x (List.mem_cons_of_mem _ hx)
      have hxr : x ≠ r := fun e => hnd.1 (e ▸ hx)
      have hxl : x ∉ l := SubscriberList_not_mem hl (by rw [hxu]; simp)
      unfold Unsubscribed
      rw [hfr x hxr hxl]
      exact hxu
    obtain ⟨m2, h2, hl2, hc2⟩ := ih m1 (l ++ [r]) hl1 hnd.2 hun1
    refine ⟨m2, ?_, by simpa using hl2, by rw [hc2, hc1]⟩
    simp [subscribeInOrder, h1, h2, List.replicate_succ]

/-- The `UnsubscribeAll` loop on a run: with enough fuel it ends normally, having
cleared exactly the receivers of the run. -/
theorem UnsubscribeAll_loop_spec (d : Nat) (l : List Nat) :
    ∀ (m : Memory α) (p : Option Nat) (fuel : Nat), Seg m d p l none → l.Nodup →
      l.length ≤ fuel →
      ∃ m1, DispatcherBase.UnsubscribeAll.loop fuel m l.head? = some (.ok m1) ∧
        (∀ r ∈ l, m1.receivers r = ⟨none, none, none⟩) ∧
        (∀ r, r ∉ l → m1.receivers r = m.receivers r) ∧
        m1.dispatchers = m.dispatchers ∧ m1.calls = m.calls := by
  induction l with
  | nil =>
    intro m p fuel _ _ _
    refine ⟨m, ?_, by simp, by simp, rfl, rfl⟩
    cases fuel <;> rfl
  | cons a rest ih =>
    intro m p fuel hs hnd hf
    rw [List.nodup_cons] at hnd
    rw [Seg_cons] at hs
    obtain ⟨fuel1, rfl⟩ : ∃ k, fuel = k + 1 := ⟨fuel - 1, by simp at hf; omega⟩
    have hs1 : Seg (m.clearReceiver a) d (some a) rest none := by
      refine Seg_frame ?_ hs.2
      intro x hx
      have hxa : x ≠ a := fun e => hnd.1 (e ▸ hx)
      simp [hxa]
    obtain ⟨m1, h1, hin, hout, hd1, hc1⟩ :=
      ih (m.clearReceiver a) (some a) fuel1 hs1 hnd.2 (by simp at hf; omega)
    have hnext : (m.receivers a).m_next = rest.head? := by rw [hs.1]; simp
    have hdisp : (m.receivers a).m_dispatcher ≠ none := by rw [hs.1]; simp
    refine ⟨m1, ?_, ?_, ?_, by rw [hd1]; rfl, by rw [hc1]; rfl⟩
    · simp only [List.head?_cons, DispatcherBase.UnsubscribeAll.loop, hdisp, if_false, hnext]
      exact h1
    · intro r hr
      rcases List.mem_cons.mp hr with h | h
      · subst h
        rw [hout r hnd.1]
        simp
      · exact hin r h
    · intro r hr
      have hra : r ≠ a := fun e => hr (by simp [e])
      have hrr : r ∉ rest := fun e => hr (by simp [e])
      rw [hout r hrr]
      simp [hra]

/-- `UnsubscribeAll` on a well-formed list. -/
theorem UnsubscribeAll_spec (m : Memory α) (d : Nat) (l : List Nat) (fuel : Nat)
    (hl : SubscriberList m d l) (hf : l.length ≤ fuel) :
    ∃ m1, DispatcherBase.UnsubscribeAll fuel m d = some (.ok m1) ∧
      m1.dispatchers d = ⟨none, none⟩ ∧
      (∀ r ∈ l, m1.receivers r = ⟨none, none, none⟩) ∧
      (∀ r, r ∉ l → m1.receivers r = m.receivers r) ∧
      (∀ j, j ≠ d → m1.dispatchers j = m.dispatchers j) ∧
      m1.calls = m.calls := by
  obtain ⟨hnd, hb, _, hs⟩ := hl
  obtain ⟨m1, h1, hin, hout, hd1, hc1⟩ := UnsubscribeAll_loop_spec d l m none fuel hs hnd hf
  refine ⟨(m1.setBegin d none).setEnd d none, ?_, by simp, hin, hout, ?_, hc1⟩
  · unfold DispatcherBase.UnsubscribeAll
    rw [hb, h1]
  · intro j hj
    simp [hj, hd1]

/-- The `Dispatch` loop on a run: with enough fuel it ends, having invoked exactly the
receivers given by `invoked`, in order, each with the argument, and having changed
nothing but the log. -/
theorem Dispatch_loop_spec {σ β : Type} (C : Collector σ β) (Receive : Nat → α → β) (x : α)
    (d : Nat) (l : List Nat) :
    ∀ (m : Memory α) (p : Option Nat) (s : σ) (fuel : Nat), Seg m d p l none →
      l.length ≤ fuel →
      DispatcherBase.Dispatch.loop C Receive x fuel m l.head? s =
        some (collected C Receive x s l,
          { m with calls := m.calls ++ (invoked C Receive x s l).map (fun r => (r, x)) }) := by
  induction l with
  | nil =>
    intro m p s fuel _ _
    cases fuel <;> simp [DispatcherBase.Dispatch.loop, collected, invoked]
  | cons a rest ih =>
    intro m p s fuel hs hf
    rw [Seg_cons] at hs
    obtain ⟨fuel1, rfl⟩ : ∃ k, fuel = k + 1 := ⟨fuel - 1, by simp at hf; omega⟩
    have hnext : (m.receivers a).m_next = rest.head? := by rw [hs.1]; simp
    have hs1 : Seg (m.logCall a x) d (some a) rest none :=
      @Seg_frame α m (m.logCall a x) d rest (fun _ _ => rfl) (some a) none hs.2
    have h1 := ih (m.logCall a x) (some a) (C.apply s (Receive a x)).1 fuel1 hs1
      (by simp at hf; omega)
    by_cases hgo : (C.apply s (Receive a x)).2 = true
    · simp only [List.head?_cons, DispatcherBase.Dispatch.loop, hgo, if_true,
        receivers_logCall, hnext, collected, invoked]
      rw [h1]
      simp [Memory.logCall]
    · simp only [List.head?_cons, DispatcherBase.Dispatch.loop, hgo, collected, invoked]
      simp [Memory.logCall]

/-- `Dispatch` on a well-formed list. -/
theorem Dispatch_spec {σ β : Type} (C : Collector σ β) (Receive : Nat → α → β) (x : α)
    (m : Memory α) (d : Nat) (l : List Nat) (fuel : Nat)
    (hl : SubscriberList m d l) (hf : l.length ≤ fuel) :
    DispatcherBase.Dispatch C Receive fuel m d x =
      some (C.GetResult (collected C Receive x C.init l),
        { m with calls := m.calls ++ (invoked C Receive x C.init l).map (fun r => (r, x)) }) := by
  obtain ⟨_, hb, _, hs⟩ := hl
  unfold DispatcherBase.Dispatch
  rw [hb, Dispatch_loop_spec C Receive x d l m none C.init fuel hs hf]

/-- With a collector that always continues every receiver is invoked. -/
theorem invoked_of_always_continue {σ β : Type} (C : Collector σ β) (Receive : Nat → α → β)
    (x : α) (hC : ∀ s b, (C.apply s b).2 = true) :
    ∀ (l : List Nat) (s : σ), invoked C Receive x s l = l := by
  intro l
  induction l with
  | nil => intro s; rfl
  | cons a rest ih =>
    intro s
    simp [invoked, hC, ih]

/-- The invoked receivers are the first `k` of the list, where no stop is reported
before the `k`-th call and either the `k`-th call reports stop or the list is
exhausted. -/
theorem invoked_take {σ β : Type} (C : Collector σ β) (Receive : Nat → α → β) (x : α) :
    ∀ (l : List Nat) (s : σ),
      invoked C Receive x s l = l.take (invoked C Receive x s l).length ∧
      (invoked C Receive x s l).length ≤ l.length ∧
      (∀ j, 0 < j → j < (invoked C Receive x s l).length →
        (C.feed (s, true) ((l.take j).map (fun r => Receive r x))).2 = true) ∧
      ((invoked C Receive x s l).length = l.length ∨
        (0 < (invoked C Receive x s l).length ∧
          (C.feed (s, true)
            ((l.take (invoked C Receive x s l).length).map (fun r => Receive r x))).2 = false)) := by
  intro l
  induction l with
  | nil =>
    intro s
    simp [invoked]
  | cons a rest ih =>
    intro s
    by_cases hgo : (C.apply s (Receive a x)).2 = true
    · obtain ⟨h1, h2, h3, h4⟩ := ih (C.apply s (Receive a x)).1
      have hpair : C.apply s (Receive a x) = ((C.apply s (Receive a x)).1, true) :=
        Prod.ext rfl hgo
      have hinv : invoked C Receive x s (a :: rest) =
          a :: invoked C Receive x (C.apply s (Receive a x)).1 rest := by
        simp [invoked, hgo]
      rw [hinv]
      refine ⟨?_, ?_, ?_, ?_⟩
      · simp only [List.length_cons, List.take_succ_cons]
        rw [← h1]
      · simp only [List.length_cons]
        omega
      · intro j hj0 hj
        obtain ⟨j1, rfl⟩ : ∃ k, j = k + 1 := ⟨j - 1, by omega⟩
        simp only [List.take_succ_cons, List.map_cons, Collector.feed]
        rcases Nat.eq_zero_or_pos j1 with hz | hpos
        · subst hz
          simp [Collector.feed, hgo]
        · rw [hpair]
          exact h3 j1 hpos (by simp only [List.length_cons] at hj; omega)
      · rcases h4 with h4 | ⟨h4a, h4b⟩
        · left
          simp [h4]
        · right
          refine ⟨by simp, ?_⟩
          simp only [List.length_cons, List.take_succ_cons, List.map_cons, Collector.feed]
          rw [hpair]
          exact h4b
    · have hinv : invoked C Receive x s (a :: rest) = [a] := by
        simp [invoked, hgo]
      rw [hinv]
      refine ⟨by simp, by simp, ?_, ?_⟩
      · intro j hj0 hj
        simp at hj
        omega
      · right
        refine ⟨by simp, ?_⟩
        simpa [Collector.feed] using hgo

/-- Storing a null back-reference into a receiver whose three fields are null changes
no receiver. -/
theorem receivers_setDispatcher_of_cleared (m : Memory α) (r : Nat)
    (h : m.receivers r = ⟨none, none, none⟩) :
    (m.setDispatcher r none).receivers = m.receivers := by
  funext j
  by_cases hj : j = r
  · subst hj; simp [h]
  · simp [hj]

/-- `Subscribe` with `replace = true` of a member of another dispatcher's well-formed
list: it succeeds, the receiver leaves the old list and is appended to the new one. -/
theorem Subscribe_replace_spec (m : Memory α) (A B r : Nat) (la lb : List Nat)
    (hA : SubscriberList m A la) (hB : SubscriberList m B lb) (hr : r ∈ la) (hBA : B ≠ A) :
    ∃ m1, DispatcherBase.Subscribe m B r true = .ok (true, m1) ∧
      SubscriberList m1 A (la.erase r) ∧ SubscriberList m1 B (lb ++ [r]) ∧
      (m1.receivers r).m_dispatcher = some B ∧
      (∀ j, j ∉ la → j ∉ lb → m1.receivers j = m.receivers j) ∧
      (∀ j, j ≠ A → j ≠ B → m1.dispatchers j = m.dispatchers j) ∧
      m1.calls = m.calls := by
  have hD := SubscriberList_dispatcher hA r hr
  have hdis := SubscriberList_disjoint hA hB (Ne.symm hBA)
  obtain ⟨m1, h1, hA1, hr1, hfr1, hfd1, hc1⟩ := Unsubscribe_spec m A r la hA hr
  have hrecv := receivers_setDispatcher_of_cleared m1 r hr1
  have hB1 : SubscriberList (m1.setDispatcher r none) B lb := by
    refine SubscriberList_frame ?_ (hfd1 B hBA) hB
    intro x hx
    rw [hrecv]
    exact hfr1 x (fun hxa => hdis x hxa hx)
  have hu : Unsubscribed (m1.setDispatcher r none) r := by
    unfold Unsubscribed
    rw [hrecv]
    exact hr1
  obtain ⟨m2, h2, hB2, hr2, hfr2, hfd2, hc2⟩ :=
    Subscribe_link_spec (m1.setDispatcher r none) B r lb hB1 hu
  refine ⟨m2, ?_, ?_, hB2, hr2, ?_, ?_, by rw [hc2]; exact hc1⟩
  · unfold DispatcherBase.Subscribe
    rw [hD]
    simp only [Ne.symm hBA, if_false, Bool.not_true, Bool.false_eq_true]
    unfold Receiver.Unsubscribe
    rw [hD]
    simp only [h1]
    exact h2
  · refine SubscriberList_frame ?_ ?_ hA1
    · intro x hx
      have hx1 := (List.Nodup.mem_erase_iff hA.1).mp hx
      rw [hfr2 x hx1.1 (hdis x hx1.2), hrecv]
    · rw [hfd2 A (Ne.symm hBA)]
      rfl
  · intro j hja hjb
    have hjr : j ≠ r := fun e => hja (e ▸ hr)
    rw [hfr2 j hjr hjb, hrecv]
    exact hfr1 j hja
  · intro j hjA hjB
    rw [hfd2 j hjB]
    exact hfd1 j hjA

/-- A successful `Subscribe` leaves the receiver with this dispatcher as
back-reference. -/
theorem Subscribe_true_dispatcher (m m1 : Memory α) (d r : Nat) (replace : Bool)
    (h : DispatcherBase.Subscribe m d r replace = .ok (true, m1)) :
    (m1.receivers r).m_dispatcher = some d := by
  have hlink : ∀ (m0 : Memory α), DispatcherBase.Subscribe.link m0 d r = .ok (true, m1) →
      (m1.receivers r).m_dispatcher = some d := by
    intro m0 h0
    unfold DispatcherBase.Subscribe.link at h0
    split_ifs at h0 <;> (try split at h0) <;> (try split at h0) <;>
      first
      | (cases h0; done)
      | (simp only [Except.ok.injEq, Prod.mk.injEq, true_and] at h0; subst h0; simp)
  unfold DispatcherBase.Subscribe at h
  split at h
  · rename_i A hA
    split_ifs at h with h1 h2
    · simp only [Except.ok.injEq, Prod.mk.injEq, true_and] at h
      subst h
      rw [hA, h1]
    · simp at h
    · split at h
      · cases h
      · exact hlink _ h
  · exact hlink _ h

/-- Every fault of `Unsubscribe` carries the memory the call started from. -/
theorem Unsubscribe_error_memory (m m1 : Memory α) (d r : Nat) (f : Fault)
    (h : DispatcherBase.Unsubscribe m d r = .error (f, m1)) : m1 = m := by
  unfold DispatcherBase.Unsubscribe at h
  split_ifs at h
  · simp only [Except.error.injEq, Prod.mk.injEq] at h
    exact h.2.symm
  · split at h
    · simp only [Except.error.injEq, Prod.mk.injEq] at h
      exact h.2.symm
    · cases h
  · split at h
    · simp only [Except.error.injEq, Prod.mk.injEq] at h
      exact h.2.symm
    · cases h
  · split at h
    · cases h
    · simp only [Except.error.injEq, Prod.mk.injEq] at h
      exact h.2.symm

/-- The `Verify` of `Unsubscribe` fails exactly when the back-reference differs. -/
theorem Unsubscribe_verify_iff (m : Memory α) (d r : Nat) :
    DispatcherBase.Unsubscribe m d r = .error (Fault.verify, m) ↔
      (m.receivers r).m_dispatcher ≠ some d := by
  constructor
  · intro h hd
    unfold DispatcherBase.Unsubscribe at h
    rw [if_neg (not_not.mpr hd)] at h
    split_ifs at h
    · split at h
      · simp at h
      · cases h
    · split at h
      · simp at h
      · cases h
    · split at h
      · cases h
      · simp at h
  · intro h
    unfold DispatcherBase.Unsubscribe
    rw [if_pos h]

/-- The sample state is well formed. -/
theorem sampleMemory_wellFormed : WellFormed sampleMemory := by
  constructor
  · intro d
    by_cases h0 : d = 0
    · subst h0
      refine ⟨[1, 2, 3], by decide, ?_⟩
      intro r hr
      simp only [sampleMemory] at hr
      split_ifs at hr <;> simp_all
    · by_cases h1 : d = 1
      · subst h1
        refine ⟨[4], by decide, ?_⟩
        intro r hr
        simp only [sampleMemory] at hr
        split_ifs at hr <;> simp_all
      · refine ⟨[], ⟨List.nodup_nil, ?_, ?_, trivial⟩, ?_⟩
        · simp [sampleMemory, h0, h1]
        · simp [sampleMemory, h0, h1]
        · intro r hr
          simp only [sampleMemory] at hr
          split_ifs at hr <;> simp_all
  · intro r hr
    unfold Unsubscribed
    simp only [sampleMemory] at hr ⊢
    split_ifs at hr ⊢
    simp_all

/-- `Subscribe` of a receiver whose back-reference already is this dispatcher. -/
theorem Subscribe_of_subscribed_here (m : Memory α) (d r : Nat) (replace : Bool)
    (h : (m.receivers r).m_dispatcher = some d) :
    DispatcherBase.Subscribe m d r replace = .ok (true, m) := by
  unfold DispatcherBase.Subscribe
  rw [h]
  simp

/-- Two memories with the same receivers, dispatchers and log are equal. -/
theorem Memory_eq_of_fields {m m1 : Memory α} (hr : m1.receivers = m.receivers)
    (hd : m1.dispatchers = m.dispatchers) (hc : m1.calls = m.calls) : m1 = m := by
  cases m
  cases m1
  simp only at hr hd hc
  subst hr hd hc
  rfl

/-- More fuel does not change the result of the `UnsubscribeAll` loop. -/
theorem UnsubscribeAll_loop_mono (fuel : Nat) :
    ∀ (m : Memory α) (it : Option Nat) (x : Outcome α (Memory α)),
      DispatcherBase.UnsubscribeAll.loop fuel m it = some x →
      ∀ k, DispatcherBase.UnsubscribeAll.loop (fuel + k) m it = some x := by
  induction fuel with
  | zero =>
    intro m it x h k
    cases it with
    | none =>
      cases k <;> simpa [DispatcherBase.UnsubscribeAll.loop] using h
    | some r => simp [DispatcherBase.UnsubscribeAll.loop] at h
  | succ f ih =>
    intro m it x h k
    cases it with
    | none =>
      simp only [DispatcherBase.UnsubscribeAll.loop] at h
      rw [Nat.add_right_comm]
      simpa [DispatcherBase.UnsubscribeAll.loop] using h
    | some r =>
      rw [Nat.add_right_comm]
      simp only [DispatcherBase.UnsubscribeAll.loop] at h ⊢
      split_ifs at h ⊢ with h0
      · exact h
      · exact ih _ _ _ h k

/-- More fuel does not change the result of a walk along `m_next`. -/
theorem walkNext_mono (m : Memory α) (fuel : Nat) :
    ∀ (it : Option Nat) (l : List Nat), walkNext m fuel it = some l →
      ∀ k, walkNext m (fuel + k) it = some l := by
  induction fuel with
  | zero =>
    intro it l h k
    cases it with
    | none => cases k <;> simpa [walkNext] using h
    | some r => simp [walkNext] at h
  | succ f ih =>
    intro it l h k
    cases it with
    | none =>
      rw [Nat.add_right_comm]
      simpa [walkNext] using h
    | some r =>
      rw [Nat.add_right_comm]
      simp only [walkNext] at h ⊢
      cases hw : walkNext m f (m.receivers r).m_next with
      | none => rw [hw] at h; cases h
      | some l1 =>
        rw [hw] at h
        rw [ih _ _ hw k]
        exact h

/-- The walk along `m_next` over a run visits the run. -/
theorem walkNext_Seg (d : Nat) (l : List Nat) :
    ∀ (m : Memory α) (p : Option Nat) (fuel : Nat), Seg m d p l none → l.length ≤ fuel →
      walkNext m fuel l.head? = some l := by
  induction l with
  | nil =>
    intro m p fuel _ _
    cases fuel <;> rfl
  | cons a rest ih =>
    intro m p fuel hs hf
    rw [Seg_cons] at hs
    obtain ⟨fuel1, rfl⟩ : ∃ k, fuel = k + 1 := ⟨fuel - 1, by simp at hf; omega⟩
    have hnext : (m.receivers a).m_next = rest.head? := by rw [hs.1]; simp
    simp only [List.head?_cons, walkNext, hnext]
    rw [ih m (some a) fuel1 hs.2 (by simp at hf; omega)]

/-- The walk along `m_previous` from the last receiver of a run visits the run in
reverse. -/
theorem walkPrevious_Seg (d : Nat) (l : List Nat) :
    ∀ (m : Memory α) (n : Option Nat) (fuel : Nat), Seg m d none l n → l.length ≤ fuel →
      walkPrevious m fuel l.getLast? = some l.reverse := by
  induction l using List.reverseRecOn with
  | nil =>
    intro m n fuel _ _
    cases fuel <;> rfl
  | append_singleton L a ih =>
    intro m n fuel hs hf
    rw [Seg_append, Seg_cons] at hs
    obtain ⟨fuel1, rfl⟩ : ∃ k, fuel = k + 1 := ⟨fuel - 1, by simp at hf; omega⟩
    have hprev : (m.receivers a).m_previous = L.getLast? := by rw [hs.2.1]; simp
    simp only [List.getLast?_concat, walkPrevious, hprev, List.reverse_append,
      List.reverse_cons, List.reverse_nil, List.nil_append, List.singleton_append]
    rw [ih m (some a) fuel1 (by simpa using hs.1) (by simp at hf; omega)]

/-- In a well-formed list the walk from the head gives the list, whatever fuel let it
end. -/
theorem subscribers_of_SubscriberList {m : Memory α} {d : Nat} {l l1 : List Nat} {fuel : Nat}
    (hl : SubscriberList m d l) (hw : DispatcherBase.subscribers fuel m d = some l1) :
    l1 = l := by
  unfold DispatcherBase.subscribers at hw
  have h1 := walkNext_mono m fuel _ _ hw l.length
  have h2 := walkNext_Seg d l m none (fuel + l.length) hl.2.2.2 (by omega)
  rw [hl.2.1] at h1
  rw [h1] at h2
  exact Option.some.inj h2

/-- More fuel does not change the result of `UnsubscribeAll`. -/
theorem UnsubscribeAll_mono (fuel : Nat) (m : Memory α) (d : Nat) (x : Outcome α (Memory α))
    (h : DispatcherBase.UnsubscribeAll fuel m d = some x) (k : Nat) :
    DispatcherBase.UnsubscribeAll (fuel + k) m d = some x := by
  unfold DispatcherBase.UnsubscribeAll at h ⊢
  cases hl : DispatcherBase.UnsubscribeAll.loop fuel m (m.dispatchers d).m_begin with
  | none => rw [hl] at h; cases h
  | some y =>
    rw [hl] at h
    rw [UnsubscribeAll_loop_mono fuel m _ y hl k]
    exact h

/-- The initial memory is well formed. -/
theorem WellFormed_initial : WellFormed (Memory.initial : Memory α) := by
  refine ⟨fun d => ⟨[], ⟨List.nodup_nil, rfl, rfl, trivial⟩, ?_⟩, fun r _ => rfl⟩
  intro r hr
  simp [Memory.initial] at hr

/-- A step that touches only the receivers in `T` and the dispatchers in `D` keeps the
state well formed, provided the touched receivers belonged and belong to touched
dispatchers only and the touched part is well formed afterwards. -/
theorem WellFormed_of_frame {m m1 : Memory α} (hwf : WellFormed m) (T D : Nat → Prop)
    (hrecv : ∀ j, ¬ T j → m1.receivers j = m.receivers j)
    (hdisp : ∀ j, ¬ D j → m1.dispatchers j = m.dispatchers j)
    (hTm : ∀ r, T r → ∀ d, (m.receivers r).m_dispatcher = some d → D d)
    (hT1 : ∀ r, T r → ∀ d, (m1.receivers r).m_dispatcher = some d → D d)
    (hnull : ∀ r, T r → (m1.receivers r).m_dispatcher = none → Unsubscribed m1 r)
    (hD : ∀ d, D d → ∃ l, SubscriberList m1 d l ∧
      ∀ r, (m1.receivers r).m_dispatcher = some d → r ∈ l) : WellFormed m1 := by
  constructor
  · intro d
    by_cases hd : D d
    · exact hD d hd
    · obtain ⟨l, hl, hmem⟩ := hwf.1 d
      refine ⟨l, SubscriberList_frame ?_ (hdisp d hd) hl, ?_⟩
      · intro x hx
        exact hrecv x (fun hT => hd (hTm x hT d (SubscriberList_dispatcher hl x hx)))
      · intro r hr
        by_cases hT : T r
        · exact absurd (hT1 r hT d hr) hd
        · rw [hrecv r hT] at hr
          exact hmem r hr
  · intro r hr
    by_cases hT : T r
    · exact hnull r hT hr
    · unfold Unsubscribed
      rw [hrecv r hT] at hr ⊢
      exact hwf.2 r hr

/-- `Unsubscribe` only returns normally for a receiver whose back-reference is this
dispatcher. -/
theorem Unsubscribe_ok_dispatcher (m m1 : Memory α) (d r : Nat)
    (h : DispatcherBase.Unsubscribe m d r = .ok m1) :
    (m.receivers r).m_dispatcher = some d := by
  by_contra hne
  rw [(Unsubscribe_verify_iff m d r).mpr hne] at h
  cases h

/-- `Unsubscribe` keeps a well-formed state well formed. -/
theorem WellFormed_Unsubscribe (m m1 : Memory α) (d r : Nat) (hwf : WellFormed m)
    (h : DispatcherBase.Unsubscribe m d r = .ok m1) : WellFormed m1 := by
  have hD := Unsubscribe_ok_dispatcher m m1 d r h
  obtain ⟨l, hl, hmem⟩ := hwf.1 d
  have hr := hmem r hD
  obtain ⟨m2, h2, hl2, hr2, hfr, hfd, _⟩ := Unsubscribe_spec m d r l hl hr
  rw [h2] at h
  cases h
  have hclass : ∀ j, j ∈ l → j = r ∨ j ∈ l.erase r := by
    intro j hj
    by_cases hjr : j = r
    · exact Or.inl hjr
    · exact Or.inr ((List.Nodup.mem_erase_iff hl.1).mpr ⟨hjr, hj⟩)
  refine WellFormed_of_frame hwf (fun j => j ∈ l) (fun j => j = d) hfr hfd ?_ ?_ ?_ ?_
  · intro j hj d1 hd1
    rw [SubscriberList_dispatcher hl j hj] at hd1
    exact (Option.some.inj hd1).symm
  · intro j hj d1 hd1
    rcases hclass j hj with h0 | h0
    · subst h0; rw [hr2] at hd1; cases hd1
    · rw [SubscriberList_dispatcher hl2 j h0] at hd1
      exact (Option.some.inj hd1).symm
  · intro j hj hnone
    rcases hclass j hj with h0 | h0
    · subst h0; exact hr2
    · rw [SubscriberList_dispatcher hl2 j h0] at hnone; cases hnone
  · intro d1 hd1
    subst hd1
    refine ⟨l.erase r, hl2, ?_⟩
    intro j hj
    by_cases hjl : j ∈ l
    · rcases hclass j hjl with h0 | h0
      · subst h0; rw [hr2] at hj; cases hj
      · exact h0
    · rw [hfr j hjl] at hj
      exact absurd (hmem j hj) hjl

/-- `UnsubscribeAll` keeps a well-formed state well formed. -/
theorem WellFormed_UnsubscribeAll (m m1 : Memory α) (d fuel : Nat) (hwf : WellFormed m)
    (h : DispatcherBase.UnsubscribeAll fuel m d = some (.ok m1)) : WellFormed m1 := by
  obtain ⟨l, hl, hmem⟩ := hwf.1 d
  obtain ⟨m2, h2, hd2, hin, hout, hfd, _⟩ :=
    UnsubscribeAll_spec m d l (fuel + l.length) hl (by omega)
  rw [UnsubscribeAll_mono fuel m d _ h l.length] at h2
  cases h2
  refine WellFormed_of_frame hwf (fun j => j ∈ l) (fun j => j = d) hout hfd ?_ ?_ ?_ ?_
  · intro j hj d1 hd1
    rw [SubscriberList_dispatcher hl j hj] at hd1
    exact (Option.some.inj hd1).symm
  · intro j hj d1 hd1
    rw [hin j hj] at hd1
    cases hd1
  · intro j hj _
    exact hin j hj
  · intro d1 hd1
    subst hd1
    refine ⟨[], ⟨List.nodup_nil, by rw [hd2]; rfl, by rw [hd2]; rfl, trivial⟩, ?_⟩
    intro j hj
    by_cases hjl : j ∈ l
    · rw [hin j hjl] at hj; cases hj
    · rw [hout j hjl] at hj
      exact absurd (hmem j hj) hjl

/-- `Subscribe` keeps a well-formed state well formed, whatever it returns. -/
theorem WellFormed_Subscribe (m m1 : Memory α) (d r : Nat) (replace b : Bool)
    (hwf : WellFormed m) (h : DispatcherBase.Subscribe m d r replace = .ok (b, m1)) :
    WellFormed m1 := by
  obtain ⟨l, hl, hmem⟩ := hwf.1 d
  cases hD : (m.receivers r).m_dispatcher with
  | none =>
    obtain ⟨m2, h2, hl2, _, hfr, hfd, _⟩ := Subscribe_spec m d r l replace hl (hwf.2 r hD)
    rw [h2] at h
    cases h
    refine WellFormed_of_frame hwf (fun j => j = r ∨ j ∈ l) (fun j => j = d) ?_ hfd ?_ ?_ ?_ ?_
    · intro j hj
      exact hfr j (fun e => hj (Or.inl e)) (fun e => hj (Or.inr e))
    · intro j hj d1 hd1
      rcases hj with h0 | h0
      · subst h0; rw [hD] at hd1; cases hd1
      · rw [SubscriberList_dispatcher hl j h0] at hd1
        exact (Option.some.inj hd1).symm
    · intro j hj d1 hd1
      have hj1 : j ∈ l ++ [r] := by
        rcases hj with h0 | h0
        · simp [h0]
        · simp [h0]
      rw [SubscriberList_dispatcher hl2 j hj1] at hd1
      exact (Option.some.inj hd1).symm
    · intro j hj hnone
      have hj1 : j ∈ l ++ [r] := by
        rcases hj with h0 | h0
        · simp [h0]
        · simp [h0]
      rw [SubscriberList_dispatcher hl2 j hj1] at hnone
      cases hnone
    · intro d1 hd1
      subst hd1
      refine ⟨l ++ [r], hl2, ?_⟩
      intro j hj
      by_cases hjr : j = r
      · simp [hjr]
      · by_cases hjl : j ∈ l
        · simp [hjl]
        · rw [hfr j hjr hjl] at hj
          exact absurd (hmem j hj) hjl
  | some A =>
    by_cases hAd : A = d
    · subst hAd
      rw [Subscribe_of_subscribed_here m A r replace hD] at h
      cases h
      exact hwf
    · cases replace with
      | false =>
        have h0 : DispatcherBase.Subscribe m d r false = .ok (false, m) := by
          unfold DispatcherBase.Subscribe
          rw [hD]
          simp [hAd]
        rw [h0] at h
        cases h
        exact hwf
      | true =>
        obtain ⟨la, hla, hmema⟩ := hwf.1 A
        have hr := hmema r hD
        obtain ⟨m2, h2, hla2, hl2, hr2, hfr, hfd, _⟩ :=
          Subscribe_replace_spec m A d r la l hla hl hr (Ne.symm hAd)
        rw [h2] at h
        cases h
        have hclass : ∀ j, j ∈ la → j = r ∨ j ∈ la.erase r := by
          intro j hj
          by_cases hjr : j = r
          · exact Or.inl hjr
          · exact Or.inr ((List.Nodup.mem_erase_iff hla.1).mpr ⟨hjr, hj⟩)
        have hnew : ∀ j, j ∈ la ∨ j ∈ l →
            (m1.receivers j).m_dispatcher = some A ∧ j ∈ la.erase r ∨
            (m1.receivers j).m_dispatcher = some d ∧ j ∈ l ++ [r] := by
          intro j hj
          rcases hj with h0 | h0
          · rcases hclass j h0 with h1 | h1
            · subst h1
              exact Or.inr ⟨hr2, by simp⟩
            · exact Or.inl ⟨SubscriberList_dispatcher hla2 j h1, h1⟩
          · have h1 : j ∈ l ++ [r] := by simp [h0]
            exact Or.inr ⟨SubscriberList_dispatcher hl2 j h1, h1⟩
        refine WellFormed_of_frame hwf (fun j => j ∈ la ∨ j ∈ l) (fun j => j = A ∨ j = d)
          ?_ ?_ ?_ ?_ ?_ ?_
        · intro j hj
          exact hfr j (fun e => hj (Or.inl e)) (fun e => hj (Or.inr e))
        · intro j hj
          exact hfd j (fun e => hj (Or.inl e)) (fun e => hj (Or.inr e))
        · intro j hj d1 hd1
          rcases hj with h0 | h0
          · rw [SubscriberList_dispatcher hla j h0] at hd1
            exact Or.inl (Option.some.inj hd1).symm
          · rw [SubscriberList_dispatcher hl j h0] at hd1
            exact Or.inr (Option.some.inj hd1).symm
        · intro j hj d1 hd1
          rcases hnew j hj with ⟨h1, _⟩ | ⟨h1, _⟩
          · rw [h1] at hd1
            exact Or.inl (Option.some.inj hd1).symm
          · rw [h1] at hd1
            exact Or.inr (Option.some.inj hd1).symm
        · intro j hj hnone
          rcases hnew j hj with ⟨h1, _⟩ | ⟨h1, _⟩ <;> (rw [h1] at hnone; cases hnone)
        · intro d1 hd1
          rcases hd1 with hd1 | hd1
          · subst hd1
            refine ⟨la.erase r, hla2, ?_⟩
            intro j hj
            by_cases hT : j ∈ la ∨ j ∈ l
            · rcases hnew j hT with ⟨_, h1⟩ | ⟨h1, _⟩
              · exact h1
              · rw [h1] at hj
                exact absurd (Option.some.inj hj).symm hAd
            · rw [hfr j (fun e => hT (Or.inl e)) (fun e => hT (Or.inr e))] at hj
              exact absurd (Or.inl (hmema j hj)) hT
          · subst hd1
            refine ⟨l ++ [r], hl2, ?_⟩
            intro j hj
            by_cases hT : j ∈ la ∨ j ∈ l
            · rcases hnew j hT with ⟨h1, _⟩ | ⟨_, h1⟩
              · rw [h1] at hj
                exact absurd (Option.some.inj hj) hAd
              · exact h1
            · rw [hfr j (fun e => hT (Or.inl e)) (fun e => hT (Or.inr e))] at hj
              exact absurd (Or.inr (hmem j hj)) hT

/-- One call that returns keeps a well-formed state well formed. -/
theorem WellFormed_run (m m1 : Memory α) (c : Call) (hwf : WellFormed m)
    (h : c.run m = some (.ok m1)) : WellFormed m1 := by
  cases c with
  | Subscribe d r replace =>
    simp only [Call.run] at h
    cases hs : DispatcherBase.Subscribe m d r replace with
    | error e => rw [hs] at h; simp at h
    | ok v =>
      obtain ⟨b, m2⟩ := v
      rw [hs] at h
      simp only [Option.some.injEq, Except.ok.injEq] at h
      subst h
      exact WellFormed_Subscribe m m2 d r replace b hwf hs
  | Unsubscribe d r =>
    simp only [Call.run, Option.some.injEq] at h
    exact WellFormed_Unsubscribe m m1 d r hwf h
  | UnsubscribeAll d fuel =>
    exact WellFormed_UnsubscribeAll m m1 d fuel hwf h

/-- A run of calls that returns keeps a well-formed state well formed. -/
theorem WellFormed_runCalls (cs : List Call) :
    ∀ (m m1 : Memory α), WellFormed m → runCalls m cs = some (.ok m1) → WellFormed m1 := by
  induction cs with
  | nil =>
    intro m m1 hwf h
    simp only [runCalls, Option.some.injEq, Except.ok.injEq] at h
    subst h
    exact hwf
  | cons c rest ih =>
    intro m m1 hwf h
    simp only [runCalls] at h
    cases hc : c.run m with
    | none => rw [hc] at h; simp at h
    | some o =>
      cases o with
      | error e => rw [hc] at h; simp at h
      | ok m2 =>
        rw [hc] at h
        exact ih m2 m1 (WellFormed_run m m2 c hwf hc) h

/-- Every reachable state is well formed. -/
theorem WellFormed_of_Reachable (m : Memory α) (h : Reachable m) : WellFormed m := by
  obtain ⟨cs, hcs⟩ := h
  exact WellFormed_runCalls cs Memory.initial m WellFormed_initial hcs

/-- Every prefix of a run that returns is a run that returns. -/
theorem runCalls_take (cs : List Call) :
    ∀ (m m1 : Memory α), runCalls m cs = some (.ok m1) →
      ∀ k, ∃ mk, runCalls m (cs.take k) = some (.ok mk) := by
  induction cs with
  | nil =>
    intro m m1 _ k
    exact ⟨m, by simp [runCalls]⟩
  | cons c rest ih =>
    intro m m1 h k
    cases k with
    | zero => exact ⟨m, by simp [runCalls]⟩
    | succ k =>
      simp only [runCalls] at h
      cases hc : c.run m with
      | none => rw [hc] at h; simp at h
      | some o =>
        cases o with
        | error e => rw [hc] at h; simp at h
        | ok m2 =>
          rw [hc] at h
          obtain ⟨mk, hk⟩ := ih m2 m1 h k
          exact ⟨mk, by simp only [List.take_succ_cons, runCalls, hc]; exact hk⟩

/-- `Receiver::Unsubscribe` of a member of a well-formed list has the same effect as
`DispatcherBase::Unsubscribe` on its dispatcher. -/
theorem Receiver_Unsubscribe_of_mem (m m1 : Memory α) (d r : Nat) (l : List Nat)
    (hl : SubscriberList m d l) (hr : r ∈ l)
    (h : DispatcherBase.Unsubscribe m d r = .ok m1) : Receiver.Unsubscribe m r = .ok m1 := by
  obtain ⟨m2, h2, _, hr2, _⟩ := Unsubscribe_spec m d r l hl hr
  rw [h2] at h
  cases h
  unfold Receiver.Unsubscribe
  rw [SubscriberList_dispatcher hl r hr]
  simp only [h2]
  exact congrArg Except.ok
    (Memory_eq_of_fields (receivers_setDispatcher_of_cleared m1 r hr2) rfl rfl)

/-- The invoked receivers form a sublist of the list walked. -/
theorem invoked_sublist {σ β : Type} (C : Collector σ β) (Receive : Nat → α → β) (x : α)
    (l : List Nat) (s : σ) : (invoked C Receive x s l).Sublist l := by
  have h := (invoked_take C Receive x l s).1
  rw [h]
  exact List.take_sublist _ _

/-- The collector left by a walk is the collector fed the results of the invoked
receivers, in order. -/
theorem collected_eq_feed {σ β : Type} (C : Collector σ β) (Receive : Nat → α → β) (x : α) :
    ∀ (l : List Nat) (s : σ) (flag : Bool),
      collected C Receive x s l =
        (C.feed (s, flag) ((invoked C Receive x s l).map (fun r => Receive r x))).1 := by
  intro l
  induction l with
  | nil => intro s flag; rfl
  | cons a rest ih =>
    intro s flag
    by_cases hgo : (C.apply s (Receive a x)).2 = true
    · simp only [collected, invoked, hgo, if_true, List.map_cons, Collector.feed]
      exact ih (C.apply s (Receive a x)).1 (C.apply s (Receive a x)).2
    · simp [collected, invoked, hgo, Collector.feed]

/-- With a collector that keeps the last value and always continues, the walk over a
non-empty list leaves the value returned by the last receiver. -/
theorem collected_keep_last {σ β : Type} (C : Collector σ β) (Receive : Nat → α → β) (x : α)
    (hgo : ∀ s b, (C.apply s b).2 = true) (hkeep : ∀ s b, C.GetResult (C.apply s b).1 = b) :
    ∀ (l : List Nat) (hne : l ≠ []) (s : σ),
      C.GetResult (collected C Receive x s l) = Receive (l.getLast hne) x := by
  intro l
  induction l with
  | nil => intro hne; exact absurd rfl hne
  | cons a rest ih =>
    intro hne s
    by_cases hrest : rest = []
    · subst hrest
      simp [collected, hgo, hkeep]
    · have h1 : collected C Receive x s (a :: rest) =
          collected C Receive x (C.apply s (Receive a x)).1 rest := by
        simp [collected, hgo]
      rw [h1, List.getLast_cons hrest]
      exact ih hrest _

/-- In a well-formed list head and tail are both null or both non-null. -/
theorem SubscriberList_begin_end {m : Memory α} {d : Nat} {l : List Nat}
    (hl : SubscriberList m d l) :
    ((m.dispatchers d).m_begin = none ↔ l = []) ∧ ((m.dispatchers d).m_end = none ↔ l = []) := by
  obtain ⟨_, hb, he, _⟩ := hl
  rw [hb, he]
  exact ⟨List.head?_eq_none_iff, List.getLast?_eq_none_iff⟩

/-- In a well-formed list the tail has a null next link and the head a null previous
link. -/
theorem SubscriberList_ends {m : Memory α} {d : Nat} {l : List Nat}
    (hl : SubscriberList m d l) :
    (∀ t, (m.dispatchers d).m_end = some t → (m.receivers t).m_next = none) ∧
      (∀ b, (m.dispatchers d).m_begin = some b → (m.receivers b).m_previous = none) := by
  obtain ⟨_, hb, he, hs⟩ := hl
  constructor
  · intro t ht
    rw [he] at ht
    obtain ⟨L, hL⟩ := List.getLast?_eq_some_iff.mp ht
    subst hL
    rw [Seg_append, Seg_cons] at hs
    rw [hs.2.1]
    rfl
  · intro b hb1
    rw [hb] at hb1
    obtain ⟨L, hL⟩ := List.head?_eq_some_iff.mp hb1
    subst hL
    rw [Seg_cons] at hs
    rw [hs.1]

/-- In a well-formed state the walk from the head of a dispatcher, whenever it ends,
gives a well-formed list whose members are exactly the receivers with that
back-reference. -/
theorem subscribers_WellFormed {m : Memory α} (hwf : WellFormed m) {d fuel : Nat}
    {l : List Nat} (hw : DispatcherBase.subscribers fuel m d = some l) :
    SubscriberList m d l ∧ ∀ r, r ∈ l ↔ (m.receivers r).m_dispatcher = some d := by
  obtain ⟨l0, hl0, hmem⟩ := hwf.1 d
  have h := subscribers_of_SubscriberList hl0 hw
  subst h
  exact ⟨hl0, fun r => ⟨SubscriberList_dispatcher hl0 r, hmem r⟩⟩

/-- `Subscribe` then `Unsubscribe` of an unsubscribed receiver gives back the memory the
calls started from. -/
theorem Subscribe_Unsubscribe_roundtrip (m : Memory α) (d r : Nat) (l : List Nat)
    (replace : Bool) (hl : SubscriberList m d l) (hr : Unsubscribed m r) :
    ∃ m1, DispatcherBase.Subscribe m d r replace = .ok (true, m1) ∧
      DispatcherBase.Unsubscribe m1 d r = .ok m := by
  have hrl : r ∉ l := SubscriberList_not_mem hl (by rw [hr]; simp)
  rw [Subscribe_of_null m d r replace (by rw [hr])]
  unfold Unsubscribed at hr
  obtain ⟨hnd, hb, he, hs⟩ := hl
  rcases List.eq_nil_or_concat l with h | ⟨L, t, h⟩
  · subst h
    simp only [List.head?_nil, List.getLast?_nil] at hb he
    refine ⟨((m.setBegin d (some r)).setEnd d (some r)).setDispatcher r (some d),
      by simp [DispatcherBase.Subscribe.link, hr, hb, he], ?_⟩
    simp only [DispatcherBase.Unsubscribe, receivers_setDispatcher, if_true,
      dispatchers_setDispatcher, dispatchers_setEnd, dispatchers_setBegin, ne_eq,
      not_true_eq_false, if_false]
    refine congrArg Except.ok (Memory_eq_of_fields ?_ ?_ rfl)
    · funext j
      by_cases hj : j = r
      · subst hj; simp [hr]
      · simp [hj]
    · funext j
      by_cases hj : j = d
      · subst hj
        cases hdj : m.dispatchers j
        rw [hdj] at hb he
        simp only at hb he
        subst hb he
        simp
      · simp [hj]
  · rw [List.concat_eq_append] at h
    subst h
    have hrt : r ≠ t := fun e => hrl (by simp [e])
    rw [List.getLast?_concat] at he
    obtain ⟨b, hb1⟩ : ∃ b, (m.dispatchers d).m_begin = some b := by
      rw [hb]; cases L <;> simp
    have hbr : b ≠ r := by
      intro e
      subst e
      rw [hb] at hb1
      exact hrl (List.mem_of_mem_head? hb1)
    have ht : m.receivers t = ⟨some d, L.getLast?, none⟩ := by
      rw [Seg_append, Seg_cons] at hs
      rw [hs.2.1]
      simp
    refine ⟨(((m.setNext t (some r)).setPrevious r (some t)).setEnd d (some r)).setDispatcher r
      (some d), by simp [DispatcherBase.Subscribe.link, hr, hb1, he], ?_⟩
    generalize hM : (((m.setNext t (some r)).setPrevious r (some t)).setEnd d
      (some r)).setDispatcher r (some d) = M
    have hMr : M.receivers r = ⟨some d, some t, none⟩ := by
      subst hM; simp [hrt, hr]
    have hMb : (M.dispatchers d).m_begin = some b := by
      subst hM; simp [hb1]
    have hMe : (M.dispatchers d).m_end = some r := by
      subst hM; simp
    have hcalc : DispatcherBase.Unsubscribe M d r =
        .ok (((M.setEnd d (some t)).setNext t none).clearReceiver r) := by
      simp [DispatcherBase.Unsubscribe, hMr, hMb, hMe, hbr]
    rw [hcalc]
    subst hM
    refine congrArg Except.ok (Memory_eq_of_fields ?_ ?_ rfl)
    · funext j
      by_cases hj : j = r
      · subst hj; simp [hr]
      · by_cases hjt : j = t
        · subst hjt; simp [hj, ht]
        · simp [hj, hjt]
    · funext j
      by_cases hj : j = d
      · subst hj
        cases hdj : m.dispatchers j
        rw [hdj] at he
        simp only at he
        subst he
        simp [hdj]
      · simp [hj]

/-- In a well-formed state `Subscribe` always returns normally. -/
theorem Subscribe_total (m : Memory α) (d r : Nat) (replace : Bool) (hwf : WellFormed m) :
    ∃ b m1, DispatcherBase.Subscribe m d r replace = .ok (b, m1) := by
  obtain ⟨l, hl, _⟩ := hwf.1 d
  cases hD : (m.receivers r).m_dispatcher with
  | none =>
    obtain ⟨m1, h1, _⟩ := Subscribe_spec m d r l replace hl (hwf.2 r hD)
    exact ⟨true, m1, h1⟩
  | some A =>
    by_cases hAd : A = d
    · subst hAd
      exact ⟨true, m, Subscribe_of_subscribed_here m A r replace hD⟩
    · cases replace with
      | false =>
        refine ⟨false, m, ?_⟩
        unfold DispatcherBase.Subscribe
        rw [hD]
        simp [hAd]
      | true =>
        obtain ⟨la, hla, hmem⟩ := hwf.1 A
        obtain ⟨m1, h1, _⟩ :=
          Subscribe_replace_spec m A d r la l hla hl (hmem r hD) (Ne.symm hAd)
        exact ⟨true, m1, h1⟩

/-- The `Dispatch` loop, whenever it ends, has changed nothing but the log. -/
theorem Dispatch_loop_frame {σ β : Type} (C : Collector σ β) (Receive : Nat → α → β) (x : α)
    (fuel : Nat) :
    ∀ (m m1 : Memory α) (it : Option Nat) (s s1 : σ),
      DispatcherBase.Dispatch.loop C Receive x fuel m it s = some (s1, m1) →
      m1.receivers = m.receivers ∧ m1.dispatchers = m.dispatchers := by
  induction fuel with
  | zero =>
    intro m m1 it s s1 h
    cases it with
    | none =>
      simp only [DispatcherBase.Dispatch.loop, Option.some.injEq, Prod.mk.injEq] at h
      rw [← h.2]
      exact ⟨rfl, rfl⟩
    | some r => simp [DispatcherBase.Dispatch.loop] at h
  | succ f ih =>
    intro m m1 it s s1 h
    cases it with
    | none =>
      simp only [DispatcherBase.Dispatch.loop, Option.some.injEq, Prod.mk.injEq] at h
      rw [← h.2]
      exact ⟨rfl, rfl⟩
    | some r =>
      simp only [DispatcherBase.Dispatch.loop] at h
      split_ifs at h with hgo
      · have h0 := ih (m.logCall r x) m1 _ _ _ h
        exact h0
      · simp only [Option.some.injEq, Prod.mk.injEq] at h
        rw [← h.2]
        exact ⟨rfl, rfl⟩

/-- `Dispatch`, whenever it returns, has changed nothing but the log. -/
theorem Dispatch_frame {σ β : Type} (C : Collector σ β) (Receive : Nat → α → β) (x : α)
    (fuel : Nat) (m m1 : Memory α) (d : Nat) (res : β)
    (h : DispatcherBase.Dispatch C Receive fuel m d x = some (res, m1)) :
    m1.receivers = m.receivers ∧ m1.dispatchers = m.dispatchers := by
  unfold DispatcherBase.Dispatch at h
  cases hl : DispatcherBase.Dispatch.loop C Receive x fuel m (m.dispatchers d).m_begin C.init with
  | none => rw [hl] at h; cases h
  | some v =>
    obtain ⟨s1, m2⟩ := v
    rw [hl] at h
    simp only [Option.some.injEq, Prod.mk.injEq] at h
    rw [← h.2]
    exact Dispatch_loop_frame C Receive x fuel m m2 _ _ s1 hl

/-- `UnsubscribeAll` never ends with a fault on a well-formed list, whatever the fuel. -/
theorem UnsubscribeAll_no_fault (m : Memory α) (d fuel : Nat) (l : List Nat)
    (hl : SubscriberList m d l) (e : Fault × Memory α) :
    DispatcherBase.UnsubscribeAll fuel m d ≠ some (.error e) := by
  intro h
  obtain ⟨m1, h1, _⟩ := UnsubscribeAll_spec m d l (fuel + l.length) hl (by omega)
  rw [UnsubscribeAll_mono fuel m d _ h l.length] at h1
  cases h1

end Lemmas

section Claims

variable {α : Type}

/-- C1: distinct, unsubscribed receivers `rs` subscribed in that order to an empty
dispatcher are all accepted, and with a collector that always continues (the default
policy) `Dispatch(x)` then invokes exactly the receivers of `rs`, in that order, each
once and each with the argument `x`. -/
theorem C1_dispatch_in_subscription_order {σ β : Type} (C : Collector σ β)
    (Receive : Nat → α → β) (m : Memory α) (d : Nat) (rs : List Nat) (x : α) (fuel : Nat)
    (hC : ∀ s b, (C.apply s b).2 = true)
    (hempty : SubscriberList m d [])
    (hnd : rs.Nodup) (hun : ∀ r ∈ rs, Unsubscribed m r) (hf : rs.length ≤ fuel) :
    ∃ m1, subscribeInOrder m d rs = .ok (List.replicate rs.length true, m1) ∧
      ∃ res m2, DispatcherBase.Dispatch C Receive fuel m1 d x = some (res, m2) ∧
        m2.calls = m1.calls ++ rs.map (fun r => (r, x)) := by
  obtain ⟨m1, h1, hl1, _⟩ := subscribeInOrder_spec d rs m [] hempty hnd hun
  rw [List.nil_append] at hl1
  refine ⟨m1, h1, _, _, Dispatch_spec C Receive x m1 d rs fuel hl1 hf, ?_⟩
  simp only [invoked_of_always_continue C Receive x hC]

/-- Instance of C1: receivers 1, 2, 3 subscribed to dispatcher 0 of the initial memory, default collector. -/
theorem C1_dispatch_in_subscription_order_witness :
    SubscriberList (Memory.initial : Memory Nat) 0 [] ∧ [1, 2, 3].Nodup ∧
      (∀ r ∈ [1, 2, 3], Unsubscribed (Memory.initial : Memory Nat) r) ∧
      ∃ m1, subscribeInOrder (Memory.initial : Memory Nat) 0 [1, 2, 3] =
          .ok ([true, true, true], m1) ∧
        ∃ res m2, DispatcherBase.Dispatch CollectDefaultVoid (fun _ _ => ()) 3 m1 0 7 =
            some (res, m2) ∧
          m2.calls = m1.calls ++ [(1, 7), (2, 7), (3, 7)] :=
  ⟨by decide, by decide, by decide,
    C1_dispatch_in_subscription_order CollectDefaultVoid (fun _ _ => ()) Memory.initial 0
      [1, 2, 3] 7 3 (fun _ _ => rfl) (by decide) (by decide) (by decide) (by decide)⟩

/-- C2: on a well-formed list `l` and for every collector, `Dispatch` invokes the first
`k` receivers of `l` in list order, each once, and no other, where no stop is reported
before the `k`-th call and either the `k`-th call reports stop or `k` is the length of
`l`. With a list of three receivers returning false, true, false and the
stop-on-first-true collector, exactly the first two are invoked. -/
theorem C2_dispatch_stops_at_first_stop {σ β : Type} (C : Collector σ β)
    (Receive : Nat → α → β) (m : Memory α) (d : Nat) (l : List Nat) (x : α) (fuel : Nat)
    (hl : SubscriberList m d l) (hf : l.length ≤ fuel) :
    (∃ k res m1, DispatcherBase.Dispatch C Receive fuel m d x = some (res, m1) ∧
      m1.calls = m.calls ++ (l.take k).map (fun r => (r, x)) ∧
      (l.take k).Nodup ∧ k ≤ l.length ∧
      (∀ j, 0 < j → j < k →
        C.continuesAfter ((l.take j).map (fun r => Receive r x)) = true) ∧
      (k = l.length ∨
        (0 < k ∧ C.continuesAfter ((l.take k).map (fun r => Receive r x)) = false))) ∧
    (∀ (R : Nat → α → Bool) (r1 r2 r3 : Nat), l = [r1, r2, r3] →
      R r1 x = false → R r2 x = true → R r3 x = false →
      ∃ res m1, DispatcherBase.Dispatch CollectUntilTrue R fuel m d x = some (res, m1) ∧
        m1.calls = m.calls ++ [(r1, x), (r2, x)]) := by
  constructor
  · obtain ⟨h1, h2, h3, h4⟩ := invoked_take C Receive x l C.init
    refine ⟨(invoked C Receive x C.init l).length, _, _,
      Dispatch_spec C Receive x m d l fuel hl hf, ?_, ?_, h2, h3, h4⟩
    · simp only
      rw [← h1]
    · exact hl.1.sublist (List.take_sublist _ _)
  · intro R r1 r2 r3 hl3 h1 h2 h3
    refine ⟨_, _, Dispatch_spec CollectUntilTrue R x m d l fuel hl hf, ?_⟩
    subst hl3
    simp [invoked, CollectUntilTrue, h1, h2]

/-- Instance of C2: the sample list 1, 2, 3 where only receiver 2 returns true. -/
theorem C2_dispatch_stops_at_first_stop_witness :
    SubscriberList sampleMemory 0 [1, 2, 3] ∧
      ∃ res m1, DispatcherBase.Dispatch CollectUntilTrue (fun r _ => decide (r = 2)) 3
          sampleMemory 0 7 = some (res, m1) ∧
        m1.calls = sampleMemory.calls ++ [(1, 7), (2, 7)] :=
  ⟨by decide,
    (C2_dispatch_stops_at_first_stop CollectUntilTrue (fun r _ => decide (r = 2)) sampleMemory 0
      [1, 2, 3] 7 3 (by decide) (by decide)).2 (fun r _ => decide (r = 2)) 1 2 3 rfl
      (by decide) (by decide) (by decide)⟩

/-- C3: in a state where the dispatcher's list `l` is well formed and the receiver is
subscribed nowhere, `Subscribe(receiver)` returns true, the list becomes `l` with the
receiver appended at the end, and the receiver's back-reference is this dispatcher. -/
theorem C3_subscribe_appends_at_tail (m : Memory α) (d r : Nat) (l : List Nat)
    (replace : Bool) (hl : SubscriberList m d l) (hr : Unsubscribed m r) :
    ∃ m1, DispatcherBase.Subscribe m d r replace = .ok (true, m1) ∧
      SubscriberList m1 d (l ++ [r]) ∧
      (∀ i, i < l.length → (l ++ [r])[i]? = l[i]?) ∧
      (m1.receivers r).m_dispatcher = some d := by
  obtain ⟨m1, h1, h2, h3, _⟩ := Subscribe_spec m d r l replace hl hr
  exact ⟨m1, h1, h2, fun i hi => List.getElem?_append_left hi, h3⟩

/-- Instance of C3: the unsubscribed receiver 5 is subscribed to dispatcher 0 of the sample state. -/
theorem C3_subscribe_appends_at_tail_witness :
    SubscriberList sampleMemory 0 [1, 2, 3] ∧ Unsubscribed sampleMemory 5 ∧
      ∃ m1, DispatcherBase.Subscribe sampleMemory 0 5 false = .ok (true, m1) ∧
        SubscriberList m1 0 [1, 2, 3, 5] ∧
        (∀ i, i < 3 → [1, 2, 3, 5][i]? = [1, 2, 3][i]?) ∧
        (m1.receivers 5).m_dispatcher = some 0 :=
  ⟨by decide, by decide,
    C3_subscribe_appends_at_tail sampleMemory 0 5 [1, 2, 3] false (by decide) (by decide)⟩

/-- C4: if the receiver's back-reference is dispatcher `A` and `B` is a different
dispatcher, `B.Subscribe(receiver, false)` returns false and the whole memory (every
receiver field, both lists) is exactly as before. -/
theorem C4_subscribe_elsewhere_without_replace (m : Memory α) (A B r : Nat)
    (hA : (m.receivers r).m_dispatcher = some A) (hBA : B ≠ A) :
    DispatcherBase.Subscribe m B r false = .ok (false, m) := by
  unfold DispatcherBase.Subscribe
  rw [hA]
  simp [Ne.symm hBA]

/-- Instance of C4: receiver 4 of dispatcher 1 is offered to dispatcher 0 without replacement. -/
theorem C4_subscribe_elsewhere_without_replace_witness :
    (sampleMemory.receivers 4).m_dispatcher = some 1 ∧ (0 : Nat) ≠ 1 ∧
      DispatcherBase.Subscribe sampleMemory 0 4 false = .ok (false, sampleMemory) :=
  ⟨by decide, by decide,
    C4_subscribe_elsewhere_without_replace sampleMemory 1 0 4 (by decide) (by decide)⟩

/-- C5: if the receiver is a member of the well-formed list `la` of dispatcher `A` and
`B` is a different dispatcher with well-formed list `lb`, `B.Subscribe(receiver, true)`
returns true, the list of `A` becomes `la` with the receiver erased (one shorter, the
others in their order), the list of `B` becomes `lb` with the receiver appended (one
longer), and the receiver's back-reference is `B`. -/
theorem C5_subscribe_elsewhere_with_replace (m : Memory α) (A B r : Nat) (la lb : List Nat)
    (hA : SubscriberList m A la) (hB : SubscriberList m B lb) (hr : r ∈ la) (hBA : B ≠ A) :
    ∃ m1, DispatcherBase.Subscribe m B r true = .ok (true, m1) ∧
      SubscriberList m1 A (la.erase r) ∧ (la.erase r).length + 1 = la.length ∧
      (la.erase r).Sublist la ∧
      SubscriberList m1 B (lb ++ [r]) ∧ (lb ++ [r]).length = lb.length + 1 ∧
      (m1.receivers r).m_dispatcher = some B := by
  obtain ⟨m1, h1, h2, h3, h4, _⟩ := Subscribe_replace_spec m A B r la lb hA hB hr hBA
  exact ⟨m1, h1, h2, List.length_erase_add_one hr, List.erase_sublist r la, h3, by simp, h4⟩

/-- Instance of C5: the middle receiver 2 of dispatcher 0 moves to dispatcher 1. -/
theorem C5_subscribe_elsewhere_with_replace_witness :
    SubscriberList sampleMemory 0 [1, 2, 3] ∧ SubscriberList sampleMemory 1 [4] ∧
      ∃ m1, DispatcherBase.Subscribe sampleMemory 1 2 true = .ok (true, m1) ∧
        SubscriberList m1 0 [1, 3] ∧ [1, 3].length + 1 = [1, 2, 3].length ∧
        [1, 3].Sublist [1, 2, 3] ∧
        SubscriberList m1 1 [4, 2] ∧ [4, 2].length = [4].length + 1 ∧
        (m1.receivers 2).m_dispatcher = some 1 :=
  ⟨by decide, by decide,
    C5_subscribe_elsewhere_with_replace sampleMemory 0 1 2 [1, 2, 3] [4] (by decide) (by decide)
      (by decide) (by decide)⟩

/-- C6: if the receiver's back-reference already is this dispatcher, `Subscribe` with
either value of `replace` returns true and leaves the whole memory unchanged; hence after
any `Subscribe` that returned true, subscribing again returns true and changes
nothing. -/
theorem C6_subscribe_idempotent (m : Memory α) (d r : Nat) (replace : Bool) :
    ((m.receivers r).m_dispatcher = some d →
      DispatcherBase.Subscribe m d r replace = .ok (true, m)) ∧
    (∀ (first : Bool) (m1 : Memory α), DispatcherBase.Subscribe m d r first = .ok (true, m1) →
      DispatcherBase.Subscribe m1 d r replace = .ok (true, m1)) := by
  exact ⟨Subscribe_of_subscribed_here m d r replace, fun first m1 h =>
    Subscribe_of_subscribed_here m1 d r replace (Subscribe_true_dispatcher m m1 d r first h)⟩

/-- Instance of C6: receiver 2 is subscribed again to dispatcher 0, and receiver 5 is subscribed twice. -/
theorem C6_subscribe_idempotent_witness :
    (sampleMemory.receivers 2).m_dispatcher = some 0 ∧
      DispatcherBase.Subscribe sampleMemory 0 2 true = .ok (true, sampleMemory) ∧
      ∃ m1, DispatcherBase.Subscribe sampleMemory 0 5 false = .ok (true, m1) ∧
        DispatcherBase.Subscribe m1 0 5 true = .ok (true, m1) :=
  ⟨by decide, (C6_subscribe_idempotent sampleMemory 0 2 true).1 (by decide),
    _, rfl, (C6_subscribe_idempotent sampleMemory 0 5 true).2 false _ rfl⟩

/-- C7: in a well-formed state `Subscribe(receiver, replace)` returns false exactly when
the receiver's back-reference is a dispatcher other than this one and `replace` is
false; in every other case it returns true. -/
theorem C7_subscribe_result (m : Memory α) (d r : Nat) (replace : Bool)
    (hwf : WellFormed m) :
    ((∃ m1, DispatcherBase.Subscribe m d r replace = .ok (false, m1)) ↔
      ((∃ A, (m.receivers r).m_dispatcher = some A ∧ A ≠ d) ∧ replace = false)) ∧
    (¬ ((∃ A, (m.receivers r).m_dispatcher = some A ∧ A ≠ d) ∧ replace = false) →
      ∃ m1, DispatcherBase.Subscribe m d r replace = .ok (true, m1)) := by
  have htrue : ¬ ((∃ A, (m.receivers r).m_dispatcher = some A ∧ A ≠ d) ∧ replace = false) →
      ∃ m1, DispatcherBase.Subscribe m d r replace = .ok (true, m1) := by
    intro hn
    obtain ⟨l, hl, _⟩ := hwf.1 d
    cases hD : (m.receivers r).m_dispatcher with
    | none =>
      obtain ⟨m1, h1, _⟩ := Subscribe_spec m d r l replace hl (hwf.2 r hD)
      exact ⟨m1, h1⟩
    | some A =>
      by_cases hAd : A = d
      · subst hAd
        exact ⟨m, Subscribe_of_subscribed_here m A r replace hD⟩
      · have hrep : replace = true := by
          cases replace
          · exact absurd ⟨⟨A, hD, hAd⟩, rfl⟩ hn
          · rfl
        subst hrep
        obtain ⟨la, hla, hmem⟩ := hwf.1 A
        obtain ⟨m1, h1, _⟩ :=
          Subscribe_replace_spec m A d r la l hla hl (hmem r hD) (Ne.symm hAd)
        exact ⟨m1, h1⟩
  refine ⟨⟨?_, ?_⟩, htrue⟩
  · rintro ⟨m1, h1⟩
    by_contra hn
    obtain ⟨m2, h2⟩ := htrue hn
    rw [h1] at h2
    simp at h2
  · rintro ⟨⟨A, hA, hAd⟩, hrep⟩
    subst hrep
    refine ⟨m, ?_⟩
    unfold DispatcherBase.Subscribe
    rw [hA]
    simp [hAd]

/-- Instance of C7: receiver 4 of dispatcher 1 offered to dispatcher 0 without replacement. -/
theorem C7_subscribe_result_witness :
    WellFormed sampleMemory ∧
      ((∃ m1, DispatcherBase.Subscribe sampleMemory 0 4 false = .ok (false, m1)) ↔
        ((∃ A, (sampleMemory.receivers 4).m_dispatcher = some A ∧ A ≠ 0) ∧ false = false)) ∧
      (¬ ((∃ A, (sampleMemory.receivers 4).m_dispatcher = some A ∧ A ≠ 0) ∧ false = false) →
        ∃ m1, DispatcherBase.Subscribe sampleMemory 0 4 false = .ok (true, m1)) :=
  ⟨sampleMemory_wellFormed, C7_subscribe_result sampleMemory 0 4 false sampleMemory_wellFormed⟩

/-- C8: `Unsubscribe` of any member of a well-formed list (only element, head, tail or
middle) succeeds, leaves the list equal to the old list with that receiver erased, the
others in their previous relative order, and leaves the receiver with a null
back-reference and null previous and next links. -/
theorem C8_unsubscribe_erases (m : Memory α) (d r : Nat) (l : List Nat)
    (hl : SubscriberList m d l) (hr : r ∈ l) :
    ∃ m1, DispatcherBase.Unsubscribe m d r = .ok m1 ∧
      SubscriberList m1 d (l.erase r) ∧ (l.erase r).Sublist l ∧
      (∀ x, x ∈ l.erase r ↔ x ≠ r ∧ x ∈ l) ∧
      (m1.receivers r).m_dispatcher = none ∧ (m1.receivers r).m_previous = none ∧
      (m1.receivers r).m_next = none := by
  obtain ⟨m1, h1, h2, h3, _⟩ := Unsubscribe_spec m d r l hl hr
  refine ⟨m1, h1, h2, List.erase_sublist r l, fun x => List.Nodup.mem_erase_iff hl.1, ?_, ?_, ?_⟩
  all_goals rw [h3]

/-- Instance of C8: the middle receiver 2 is removed from the sample list 1, 2, 3. -/
theorem C8_unsubscribe_erases_witness :
    SubscriberList sampleMemory 0 [1, 2, 3] ∧ 2 ∈ [1, 2, 3] ∧
      ∃ m1, DispatcherBase.Unsubscribe sampleMemory 0 2 = .ok m1 ∧
        SubscriberList m1 0 [1, 3] ∧ [1, 3].Sublist [1, 2, 3] ∧
        (∀ x, x ∈ [1, 3] ↔ x ≠ 2 ∧ x ∈ [1, 2, 3]) ∧
        (m1.receivers 2).m_dispatcher = none ∧ (m1.receivers 2).m_previous = none ∧
        (m1.receivers 2).m_next = none :=
  ⟨by decide, by decide,
    C8_unsubscribe_erases sampleMemory 0 2 [1, 2, 3] (by decide) (by decide)⟩

/-- C9: the `Verify` of `Unsubscribe` aborts exactly when the receiver's back-reference
is not this dispatcher (null or another dispatcher); whenever the call fails the memory
is the one the call started from; and in a well-formed state the call fails in no other
case. -/
theorem C9_unsubscribe_verify (m : Memory α) (d r : Nat) :
    ((∃ m1, DispatcherBase.Unsubscribe m d r = .error (Fault.verify, m1)) ↔
      (m.receivers r).m_dispatcher ≠ some d) ∧
    (∀ f m1, DispatcherBase.Unsubscribe m d r = .error (f, m1) → m1 = m) ∧
    (WellFormed m →
      ((∃ e, DispatcherBase.Unsubscribe m d r = .error e) ↔
        (m.receivers r).m_dispatcher ≠ some d)) := by
  refine ⟨⟨?_, ?_⟩, ?_, ?_⟩
  · rintro ⟨m1, h1⟩
    have hm := Unsubscribe_error_memory m m1 d r Fault.verify h1
    subst hm
    exact (Unsubscribe_verify_iff m1 d r).mp h1
  · intro h
    exact ⟨m, (Unsubscribe_verify_iff m d r).mpr h⟩
  · intro f m1 h
    exact Unsubscribe_error_memory m m1 d r f h
  · intro hwf
    constructor
    · rintro ⟨e, he⟩ hd
      obtain ⟨l, hl, hmem⟩ := hwf.1 d
      obtain ⟨m1, h1, _⟩ := Unsubscribe_spec m d r l hl (hmem r hd)
      rw [h1] at he
      cases he
    · intro h
      exact ⟨_, (Unsubscribe_verify_iff m d r).mpr h⟩

/-- Instance of C9: dispatcher 1 is asked to unsubscribe receiver 2 (of dispatcher 0) and receiver 5 (subscribed nowhere). -/
theorem C9_unsubscribe_verify_witness :
    WellFormed sampleMemory ∧ (sampleMemory.receivers 2).m_dispatcher ≠ some 1 ∧
      (sampleMemory.receivers 5).m_dispatcher ≠ some 1 ∧
      (∃ m1, DispatcherBase.Unsubscribe sampleMemory 1 2 = .error (Fault.verify, m1)) ∧
      (∃ e, DispatcherBase.Unsubscribe sampleMemory 1 5 = .error e) :=
  ⟨sampleMemory_wellFormed, by decide, by decide,
    (C9_unsubscribe_verify sampleMemory 1 2).1.mpr (by decide),
    ((C9_unsubscribe_verify sampleMemory 1 5).2.2 sampleMemory_wellFormed).mpr (by decide)⟩

/-- C10: on a well-formed list `UnsubscribeAll` (which is what the destructor runs) ends
normally, leaves the dispatcher with null head and tail and every former member with a
null back-reference and null links, invokes no receiver, and changes no receiver outside
the list (in particular none subscribed to another dispatcher) and no other
dispatcher. -/
theorem C10_unsubscribeAll_clears (m : Memory α) (d : Nat) (l : List Nat) (fuel : Nat)
    (hl : SubscriberList m d l) (hf : l.length ≤ fuel) :
    ∃ m1, DispatcherBase.UnsubscribeAll fuel m d = some (.ok m1) ∧
      DispatcherBase.destructor fuel m d = some (.ok m1) ∧
      (m1.dispatchers d).m_begin = none ∧ (m1.dispatchers d).m_end = none ∧
      (∀ r ∈ l, m1.receivers r = ⟨none, none, none⟩) ∧
      m1.calls = m.calls ∧
      (∀ r, (m.receivers r).m_dispatcher ≠ some d → m1.receivers r = m.receivers r) ∧
      (∀ j, j ≠ d → m1.dispatchers j = m.dispatchers j) := by
  obtain ⟨m1, h1, h2, h3, h4, h5, h6⟩ := UnsubscribeAll_spec m d l fuel hl hf
  refine ⟨m1, h1, h1, by rw [h2], by rw [h2], h3, h6, ?_, h5⟩
  intro r hr
  exact h4 r (SubscriberList_not_mem hl hr)

/-- Instance of C10: all receivers of dispatcher 0 of the sample state are unsubscribed. -/
theorem C10_unsubscribeAll_clears_witness :
    SubscriberList sampleMemory 0 [1, 2, 3] ∧
      ∃ m1, DispatcherBase.UnsubscribeAll 3 sampleMemory 0 = some (.ok m1) ∧
        DispatcherBase.destructor 3 sampleMemory 0 = some (.ok m1) ∧
        (m1.dispatchers 0).m_begin = none ∧ (m1.dispatchers 0).m_end = none ∧
        (∀ r ∈ [1, 2, 3], m1.receivers r = ⟨none, none, none⟩) ∧
        m1.calls = sampleMemory.calls ∧
        (∀ r, (sampleMemory.receivers r).m_dispatcher ≠ some 0 →
          m1.receivers r = sampleMemory.receivers r) ∧
        (∀ j, j ≠ 0 → m1.dispatchers j = sampleMemory.dispatchers j) :=
  ⟨by decide, C10_unsubscribeAll_clears sampleMemory 0 [1, 2, 3] 3 (by decide) (by decide)⟩

/-- C11: once a member `r` of the well-formed list `l` has been removed (by
`Receiver::Unsubscribe`, which is what the receiver's destruction performs, or
equivalently by `Unsubscribe` on its dispatcher), every `Dispatch` on that dispatcher in
a state with the same subscription state invokes receivers of `l` without `r` only, in
their previous relative order (all of them when the collector always continues), leaves
the subscription state as it is, and `r` is not invoked; more generally `r` is invoked by
no `Dispatch` on a well-formed list as long as its back-reference is not this
dispatcher. -/
theorem C11_dispatch_after_removal {σ β : Type} (C : Collector σ β) (Receive : Nat → α → β)
    (m : Memory α) (d r : Nat) (l : List Nat) (x : α) (fuel : Nat)
    (hl : SubscriberList m d l) (hr : r ∈ l) (hf : (l.erase r).length ≤ fuel) :
    ∃ m1, Receiver.Unsubscribe m r = .ok m1 ∧ DispatcherBase.Unsubscribe m d r = .ok m1 ∧
      (∀ m2 : Memory α, m2.receivers = m1.receivers → m2.dispatchers = m1.dispatchers →
        ∃ res m3, DispatcherBase.Dispatch C Receive fuel m2 d x = some (res, m3) ∧
          m3.calls =
            m2.calls ++ (invoked C Receive x C.init (l.erase r)).map (fun j => (j, x)) ∧
          m3.receivers = m1.receivers ∧ m3.dispatchers = m1.dispatchers) ∧
      (invoked C Receive x C.init (l.erase r)).Sublist (l.erase r) ∧
      (l.erase r).Sublist l ∧
      r ∉ invoked C Receive x C.init (l.erase r) ∧
      ((∀ s b, (C.apply s b).2 = true) →
        invoked C Receive x C.init (l.erase r) = l.erase r) ∧
      (∀ (m2 : Memory α) (l2 : List Nat), SubscriberList m2 d l2 →
        (m2.receivers r).m_dispatcher ≠ some d → l2.length ≤ fuel →
        ∃ res m3, DispatcherBase.Dispatch C Receive fuel m2 d x = some (res, m3) ∧
          m3.calls = m2.calls ++ (invoked C Receive x C.init l2).map (fun j => (j, x)) ∧
          r ∉ invoked C Receive x C.init l2) := by
  obtain ⟨m1, h1, hl1, _⟩ := Unsubscribe_spec m d r l hl hr
  have hsub := invoked_sublist C Receive x (l.erase r) C.init
  refine ⟨m1, Receiver_Unsubscribe_of_mem m m1 d r l hl hr h1, h1, ?_, hsub,
    List.erase_sublist r l, ?_, ?_, ?_⟩
  · intro m2 hr2 hd2
    have hl2 : SubscriberList m2 d (l.erase r) :=
      SubscriberList_frame (fun j _ => by rw [hr2]) (by rw [hd2]) hl1
    exact ⟨_, _, Dispatch_spec C Receive x m2 d (l.erase r) fuel hl2 hf, rfl, hr2, hd2⟩
  · intro hmem
    exact List.Nodup.not_mem_erase hl.1 (hsub.subset hmem)
  · intro hC
    exact invoked_of_always_continue C Receive x hC _ _
  · intro m2 l2 hl2 hne hf2
    refine ⟨_, _, Dispatch_spec C Receive x m2 d l2 fuel hl2 hf2, rfl, ?_⟩
    intro hmem
    exact SubscriberList_not_mem hl2 hne ((invoked_sublist C Receive x l2 C.init).subset hmem)

/-- Instance of C11: receiver 2 of the sample list 1, 2, 3 is removed; a dispatch with
the default collector then invokes 1 and 3. -/
theorem C11_dispatch_after_removal_witness :
    SubscriberList sampleMemory 0 [1, 2, 3] ∧ 2 ∈ [1, 2, 3] ∧
      ∃ m1, Receiver.Unsubscribe sampleMemory 2 = .ok m1 ∧
        ∃ res m3, DispatcherBase.Dispatch CollectDefaultVoid (fun _ _ => ()) 2 m1 0 7 =
            some (res, m3) ∧
          m3.calls = m1.calls ++ [(1, 7), (3, 7)] :=
  ⟨by decide, by decide,
    match C11_dispatch_after_removal CollectDefaultVoid (fun _ _ => ()) sampleMemory 0 2
      [1, 2, 3] 7 2 (by decide) (by decide) (by decide) with
    | ⟨m1, h1, _, h3, _⟩ =>
      match h3 m1 rfl rfl with
      | ⟨res, m3, h4, h5, _⟩ => ⟨m1, h1, res, m3, h4, h5⟩⟩

/-- C12: `Receiver::Unsubscribe()` on a receiver whose back-reference is null returns
normally (no check is reached) and leaves the whole memory, every dispatcher list and
every receiver field, as it was. -/
theorem C12_receiver_unsubscribe_never_subscribed (m : Memory α) (r : Nat)
    (h : (m.receivers r).m_dispatcher = none) : Receiver.Unsubscribe m r = .ok m := by
  unfold Receiver.Unsubscribe
  rw [h]

/-- Instance of C12: receiver 5 of the sample state is subscribed nowhere. -/
theorem C12_receiver_unsubscribe_never_subscribed_witness :
    (sampleMemory.receivers 5).m_dispatcher = none ∧
      Receiver.Unsubscribe sampleMemory 5 = .ok sampleMemory :=
  ⟨by decide, C12_receiver_unsubscribe_never_subscribed sampleMemory 5 (by decide)⟩

/-- C13: `UnsubscribeAll` on a dispatcher whose list is empty (null head and tail) ends
normally for any fuel, with no assertion reached, and returns the memory it started
from: head and tail stay null and no receiver is modified. -/
theorem C13_unsubscribeAll_empty (m : Memory α) (d fuel : Nat)
    (h : SubscriberList m d []) :
    DispatcherBase.UnsubscribeAll fuel m d = some (.ok m) ∧
      (m.dispatchers d).m_begin = none ∧ (m.dispatchers d).m_end = none := by
  obtain ⟨_, hb, he, _⟩ := h
  simp only [List.head?_nil, List.getLast?_nil] at hb he
  refine ⟨?_, hb, he⟩
  have hloop : DispatcherBase.UnsubscribeAll.loop fuel m (m.dispatchers d).m_begin =
      some (.ok m) := by
    rw [hb]
    cases fuel <;> rfl
  unfold DispatcherBase.UnsubscribeAll
  rw [hloop]
  refine congrArg (fun y => some (Except.ok y)) (Memory_eq_of_fields rfl ?_ rfl)
  funext j
  by_cases hj : j = d
  · subst hj
    cases hdj : m.dispatchers j
    rw [hdj] at hb he
    simp only at hb he
    subst hb he
    simp [hdj]
  · simp [hj]

/-- Instance of C13: dispatcher 2 of the sample state has no subscribers. -/
theorem C13_unsubscribeAll_empty_witness :
    SubscriberList sampleMemory 2 [] ∧
      DispatcherBase.UnsubscribeAll 0 sampleMemory 2 = some (.ok sampleMemory) ∧
      (sampleMemory.dispatchers 2).m_begin = none ∧ (sampleMemory.dispatchers 2).m_end = none :=
  ⟨by decide, C13_unsubscribeAll_empty sampleMemory 2 0 (by decide)⟩

/-- C14: in every reachable state `HasSubscribers()` is true exactly when some receiver
has this dispatcher as back-reference, which is exactly when its list is non-empty; it
is false for a newly constructed dispatcher, and false after `UnsubscribeAll`, which
returns when given enough fuel. -/
theorem C14_hasSubscribers (m : Memory α) (d : Nat) (h : Reachable m) :
    (DispatcherBase.HasSubscribers m d = true ↔
      ∃ r, (m.receivers r).m_dispatcher = some d) ∧
    (DispatcherBase.HasSubscribers m d = true ↔
      ∃ l, SubscriberList m d l ∧ l ≠ []) ∧
    DispatcherBase.HasSubscribers (Memory.initial : Memory α) d = false ∧
    (∀ m0 : Memory α, DispatcherBase.HasSubscribers (DispatcherBase.constructor m0 d) d = false) ∧
    (∀ fuel m1, DispatcherBase.UnsubscribeAll fuel m d = some (.ok m1) →
      DispatcherBase.HasSubscribers m1 d = false) ∧
    (∃ fuel m1, DispatcherBase.UnsubscribeAll fuel m d = some (.ok m1)) := by
  have hwf := WellFormed_of_Reachable m h
  obtain ⟨l, hl, hmem⟩ := hwf.1 d
  have hbe := SubscriberList_begin_end hl
  have hhas : DispatcherBase.HasSubscribers m d = true ↔ l ≠ [] := by
    unfold DispatcherBase.HasSubscribers
    rw [bne_iff_ne, ne_eq, ne_eq, hbe.1]
  refine ⟨?_, ?_, ?_, ?_, ?_, ?_⟩
  · rw [hhas]
    constructor
    · intro hne
      obtain ⟨a, rest, rfl⟩ := List.exists_cons_of_ne_nil hne
      exact ⟨a, SubscriberList_dispatcher hl a (by simp)⟩
    · rintro ⟨r, hr⟩ hnil
      have := hmem r hr
      rw [hnil] at this
      cases this
  · rw [hhas]
    constructor
    · intro hne
      exact ⟨l, hl, hne⟩
    · rintro ⟨l1, hl1, hne⟩ hnil
      subst hnil
      have h1 := (SubscriberList_begin_end hl1).1.mp (hbe.1.mpr rfl)
      exact hne h1
  · rfl
  · intro m0
    simp [DispatcherBase.HasSubscribers, DispatcherBase.constructor]
  · intro fuel m1 h1
    unfold DispatcherBase.UnsubscribeAll at h1
    split at h1
    · cases h1
    · cases h1
    · simp only [Option.some.injEq, Except.ok.injEq] at h1
      subst h1
      simp [DispatcherBase.HasSubscribers]
  · obtain ⟨m1, h1, _⟩ := UnsubscribeAll_spec m d l l.length hl (le_refl _)
    exact ⟨l.length, m1, h1⟩

/-- Instance of C14: the state after the sample run. -/
theorem C14_hasSubscribers_witness :
    ∃ m : Memory Nat, runCalls Memory.initial sampleCalls = some (.ok m) ∧
      (DispatcherBase.HasSubscribers m 0 = true ↔
        ∃ r, (m.receivers r).m_dispatcher = some 0) ∧
      DispatcherBase.HasSubscribers m 0 = true ∧ DispatcherBase.HasSubscribers m 1 = false :=
  ⟨_, rfl, (C14_hasSubscribers _ 0 ⟨sampleCalls, rfl⟩).1, by decide, by decide⟩

/-- C15: on a well-formed list and an unsubscribed receiver, `Subscribe(receiver)`
followed immediately by `Unsubscribe(receiver)` returns the memory the calls started
from (head and tail of the dispatcher, every field of every receiver); on a newly
constructed dispatcher head and tail are null again afterwards. -/
theorem C15_subscribe_unsubscribe_roundtrip (m : Memory α) (d r : Nat) (l : List Nat)
    (replace : Bool) (hl : SubscriberList m d l) (hr : Unsubscribed m r) :
    (∃ m1, DispatcherBase.Subscribe m d r replace = .ok (true, m1) ∧
      DispatcherBase.Unsubscribe m1 d r = .ok m) ∧
    (∃ m1 m2, DispatcherBase.Subscribe (DispatcherBase.constructor m d) d r replace =
        .ok (true, m1) ∧
      DispatcherBase.Unsubscribe m1 d r = .ok m2 ∧
      (m2.dispatchers d).m_begin = none ∧ (m2.dispatchers d).m_end = none) := by
  refine ⟨Subscribe_Unsubscribe_roundtrip m d r l replace hl hr, ?_⟩
  have hl0 : SubscriberList (DispatcherBase.constructor m d) d [] := by
    refine ⟨List.nodup_nil, ?_, ?_, trivial⟩ <;> simp [DispatcherBase.constructor]
  have hr0 : Unsubscribed (DispatcherBase.constructor m d) r := hr
  obtain ⟨m1, h1, h2⟩ :=
    Subscribe_Unsubscribe_roundtrip (DispatcherBase.constructor m d) d r [] replace hl0 hr0
  exact ⟨m1, _, h1, h2, by simp [DispatcherBase.constructor],
    by simp [DispatcherBase.constructor]⟩

/-- Instance of C15: receiver 5 is subscribed to and unsubscribed from dispatcher 0 of
the sample state. -/
theorem C15_subscribe_unsubscribe_roundtrip_witness :
    SubscriberList sampleMemory 0 [1, 2, 3] ∧ Unsubscribed sampleMemory 5 ∧
      ∃ m1, DispatcherBase.Subscribe sampleMemory 0 5 false = .ok (true, m1) ∧
        DispatcherBase.Unsubscribe m1 0 5 = .ok sampleMemory :=
  ⟨by decide, by decide,
    (C15_subscribe_unsubscribe_roundtrip sampleMemory 0 5 [1, 2, 3] false (by decide)
      (by decide)).1⟩

/-- C16: on a well-formed list and for every collector, `Dispatch` returns `GetResult()`
of the collector that started fresh and was fed, in order, the results of exactly the
invoked receivers, which are all receivers of the list or its prefix up to the first
reported stop; on an empty list it returns the fresh collector's result and changes
nothing, the log included. -/
theorem C16_dispatch_result {σ β : Type} (C : Collector σ β) (Receive : Nat → α → β)
    (m : Memory α) (d : Nat) (l : List Nat) (x : α) (fuel : Nat)
    (hl : SubscriberList m d l) (hf : l.length ≤ fuel) :
    ∃ res m1, DispatcherBase.Dispatch C Receive fuel m d x = some (res, m1) ∧
      m1.calls = m.calls ++ (invoked C Receive x C.init l).map (fun r => (r, x)) ∧
      res = C.GetResult (C.feed (C.init, true)
        ((invoked C Receive x C.init l).map (fun r => Receive r x))).1 ∧
      (invoked C Receive x C.init l = l ∨
        ∃ k, 0 < k ∧ invoked C Receive x C.init l = l.take k ∧
          C.continuesAfter ((l.take k).map (fun r => Receive r x)) = false) ∧
      (l = [] → res = C.GetResult C.init ∧ m1 = m) := by
  obtain ⟨h1, _, _, h4⟩ := invoked_take C Receive x l C.init
  refine ⟨_, _, Dispatch_spec C Receive x m d l fuel hl hf, rfl, ?_, ?_, ?_⟩
  · rw [collected_eq_feed C Receive x l C.init true]
  · rcases h4 with h4 | ⟨h4a, h4b⟩
    · left
      have h1a := h1
      rw [h4, List.take_length] at h1a
      exact h1a
    · exact Or.inr ⟨_, h4a, h1, h4b⟩
  · intro hnil
    subst hnil
    exact ⟨rfl, Memory_eq_of_fields rfl rfl (by simp [invoked])⟩

/-- Instance of C16: the sample list 1, 2, 3 with the stop-on-first-true collector,
only receiver 2 returning true. -/
theorem C16_dispatch_result_witness :
    SubscriberList sampleMemory 0 [1, 2, 3] ∧
      ∃ res m1, DispatcherBase.Dispatch CollectUntilTrue (fun r _ => decide (r = 2)) 3
          sampleMemory 0 7 = some (res, m1) ∧
        m1.calls = sampleMemory.calls ++ [(1, 7), (2, 7)] ∧
        res = CollectUntilTrue.GetResult
          (CollectUntilTrue.feed (CollectUntilTrue.init, true) [false, true]).1 :=
  ⟨by decide,
    match C16_dispatch_result CollectUntilTrue (fun r _ => decide (r = 2)) sampleMemory 0
      [1, 2, 3] 7 3 (by decide) (by decide) with
    | ⟨res, m1, h1, h2, h3, _⟩ => ⟨res, m1, h1, h2, h3⟩⟩

/-- C17: with a collector that keeps the last value and always continues (the default
policy for value-returning signatures, in particular `CollectDefault`), `Dispatch` on a
non-empty well-formed list invokes every receiver, in order, and returns the value
returned by the last receiver of the list. -/
theorem C17_default_collector_last_value {σ β : Type} (C : Collector σ β)
    (Receive : Nat → α → β) (m : Memory α) (d : Nat) (l : List Nat) (x : α) (fuel : Nat)
    (hgo : ∀ s b, (C.apply s b).2 = true) (hkeep : ∀ s b, C.GetResult (C.apply s b).1 = b)
    (hl : SubscriberList m d l) (hne : l ≠ []) (hf : l.length ≤ fuel) :
    (∃ m1, DispatcherBase.Dispatch C Receive fuel m d x =
        some (Receive (l.getLast hne) x, m1) ∧
      m1.calls = m.calls ++ l.map (fun r => (r, x))) ∧
    (∀ fresh : β, ∃ m1, DispatcherBase.Dispatch (CollectDefault fresh) Receive fuel m d x =
        some (Receive (l.getLast hne) x, m1) ∧
      m1.calls = m.calls ++ l.map (fun r => (r, x))) := by
  have key : ∀ {τ : Type} (K : Collector τ β), (∀ s b, (K.apply s b).2 = true) →
      (∀ s b, K.GetResult (K.apply s b).1 = b) →
      ∃ m1, DispatcherBase.Dispatch K Receive fuel m d x =
          some (Receive (l.getLast hne) x, m1) ∧
        m1.calls = m.calls ++ l.map (fun r => (r, x)) := by
    intro τ K h1 h2
    refine ⟨{ m with calls := m.calls ++ l.map (fun r => (r, x)) }, ?_, rfl⟩
    rw [Dispatch_spec K Receive x m d l fuel hl hf,
      collected_keep_last K Receive x h1 h2 l hne K.init,
      invoked_of_always_continue K Receive x h1 l K.init]
  exact ⟨key C hgo hkeep, fun fresh => key (CollectDefault fresh) (fun _ _ => rfl)
    (fun _ _ => rfl)⟩

/-- Instance of C17: the sample list 1, 2, 3 where receiver `r` returns `10 * r`. -/
theorem C17_default_collector_last_value_witness :
    SubscriberList sampleMemory 0 [1, 2, 3] ∧
      ∃ m1, DispatcherBase.Dispatch (CollectDefault 0) (fun r _ => 10 * r) 3 sampleMemory 0 7 =
          some (30, m1) ∧
        m1.calls = sampleMemory.calls ++ [(1, 7), (2, 7), (3, 7)] :=
  ⟨by decide,
    (C17_default_collector_last_value (CollectDefault 0) (fun r _ => 10 * r) sampleMemory 0
      [1, 2, 3] 7 3 (fun _ _ => rfl) (fun _ _ => rfl) (by decide) (by decide) (by decide)).1⟩

/-- C18: for every sequence of `Subscribe` (either `replace`), `Unsubscribe` (of a
receiver whose back-reference is that dispatcher, the only ones that return) and
`UnsubscribeAll` calls run from newly constructed dispatchers and unsubscribed
receivers, after every call of the sequence and for every dispatcher the head is null
if and only if the tail is null. -/
theorem C18_head_tail_symmetry (cs : List Call) (m : Memory α)
    (h : runCalls Memory.initial cs = some (.ok m)) :
    (∀ d, (m.dispatchers d).m_begin = none ↔ (m.dispatchers d).m_end = none) ∧
    (∀ k, ∃ mk : Memory α, runCalls Memory.initial (cs.take k) = some (.ok mk) ∧
      ∀ d, (mk.dispatchers d).m_begin = none ↔ (mk.dispatchers d).m_end = none) := by
  have key : ∀ (m0 : Memory α), Reachable m0 →
      ∀ d, (m0.dispatchers d).m_begin = none ↔ (m0.dispatchers d).m_end = none := by
    intro m0 h0 d
    obtain ⟨l, hl, _⟩ := (WellFormed_of_Reachable m0 h0).1 d
    have hbe := SubscriberList_begin_end hl
    rw [hbe.1, hbe.2]
  refine ⟨key m ⟨cs, h⟩, ?_⟩
  intro k
  obtain ⟨mk, hk⟩ := runCalls_take cs Memory.initial m h k
  exact ⟨mk, hk, key mk ⟨cs.take k, hk⟩⟩

/-- Instance of C18: the sample run. -/
theorem C18_head_tail_symmetry_witness :
    ∃ m : Memory Nat, runCalls Memory.initial sampleCalls = some (.ok m) ∧
      ∀ d, (m.dispatchers d).m_begin = none ↔ (m.dispatchers d).m_end = none :=
  ⟨_, rfl, (C18_head_tail_symmetry sampleCalls _ rfl).1⟩

/-- C19: each call that returns takes a well-formed state to a well-formed state, and in
every reachable state every dispatcher has a list of distinct receivers such that
following the next links from the head visits exactly that list and ends with the tail,
whose next link is null, and following the previous links from the tail visits the same
receivers in reverse order and ends with the head, whose previous link is null; both
walks end, so there is no cycle. -/
theorem C19_list_wellformed_preserved (m : Memory α) :
    (WellFormed m → ∀ (c : Call) (m1 : Memory α), c.run m = some (.ok m1) → WellFormed m1) ∧
    (Reachable m → ∀ d, ∃ l : List Nat, l.Nodup ∧
      (m.dispatchers d).m_begin = l.head? ∧ (m.dispatchers d).m_end = l.getLast? ∧
      (∀ fuel, l.length ≤ fuel → walkNext m fuel (m.dispatchers d).m_begin = some l) ∧
      (∀ fuel, l.length ≤ fuel →
        walkPrevious m fuel (m.dispatchers d).m_end = some l.reverse) ∧
      (∀ t, (m.dispatchers d).m_end = some t → (m.receivers t).m_next = none) ∧
      (∀ b, (m.dispatchers d).m_begin = some b → (m.receivers b).m_previous = none)) := by
  refine ⟨fun hwf c m1 hc => WellFormed_run m m1 c hwf hc, ?_⟩
  intro h d
  obtain ⟨l, hl, _⟩ := (WellFormed_of_Reachable m h).1 d
  have hends := SubscriberList_ends hl
  refine ⟨l, hl.1, hl.2.1, hl.2.2.1, ?_, ?_, hends.1, hends.2⟩
  · intro fuel hf
    rw [hl.2.1]
    exact walkNext_Seg d l m none fuel hl.2.2.2 hf
  · intro fuel hf
    rw [hl.2.2.1]
    exact walkPrevious_Seg d l m none fuel hl.2.2.2 hf

/-- Instance of C19: after the sample run dispatcher 0 holds receivers 3 and 4. -/
theorem C19_list_wellformed_preserved_witness :
    ∃ m : Memory Nat, runCalls Memory.initial sampleCalls = some (.ok m) ∧
      WellFormed m ∧
      walkNext m 2 (m.dispatchers 0).m_begin = some [3, 4] ∧
      walkPrevious m 2 (m.dispatchers 0).m_end = some [4, 3] ∧
      ∃ l : List Nat, l.Nodup ∧
        (m.dispatchers 0).m_begin = l.head? ∧ (m.dispatchers 0).m_end = l.getLast? ∧
        (∀ fuel, l.length ≤ fuel → walkNext m fuel (m.dispatchers 0).m_begin = some l) ∧
        (∀ fuel, l.length ≤ fuel →
          walkPrevious m fuel (m.dispatchers 0).m_end = some l.reverse) ∧
        (∀ t, (m.dispatchers 0).m_end = some t → (m.receivers t).m_next = none) ∧
        (∀ b, (m.dispatchers 0).m_begin = some b → (m.receivers b).m_previous = none) :=
  ⟨_, rfl, WellFormed_of_Reachable _ ⟨sampleCalls, rfl⟩, by decide, by decide,
    (C19_list_wellformed_preserved _).2 ⟨sampleCalls, rfl⟩ 0⟩

/-- C20: in every reachable state, for every receiver: it is in the list (the walk from
the head) of at most one dispatcher; if its back-reference is a dispatcher, that
dispatcher's list contains it exactly once and no other dispatcher's list contains it;
if its back-reference is null, no list contains it and both of its links are null. -/
theorem C20_subscription_exclusive (m : Memory α) (r : Nat) (h : Reachable m) :
    (∀ d1 d2 f1 f2 l1 l2, DispatcherBase.subscribers f1 m d1 = some l1 →
      DispatcherBase.subscribers f2 m d2 = some l2 → r ∈ l1 → r ∈ l2 → d1 = d2) ∧
    (∀ d, (m.receivers r).m_dispatcher = some d →
      (∃ l, (∀ fuel, l.length ≤ fuel → DispatcherBase.subscribers fuel m d = some l) ∧
        l.count r = 1) ∧
      (∀ d1 f l1, d1 ≠ d → DispatcherBase.subscribers f m d1 = some l1 → r ∉ l1)) ∧
    ((m.receivers r).m_dispatcher = none →
      (∀ d f l, DispatcherBase.subscribers f m d = some l → r ∉ l) ∧
      (m.receivers r).m_previous = none ∧ (m.receivers r).m_next = none) := by
  have hwf := WellFormed_of_Reachable m h
  refine ⟨?_, ?_, ?_⟩
  · intro d1 d2 f1 f2 l1 l2 h1 h2 hr1 hr2
    have e1 := ((subscribers_WellFormed hwf h1).2 r).mp hr1
    have e2 := ((subscribers_WellFormed hwf h2).2 r).mp hr2
    rw [e1] at e2
    exact Option.some.inj e2
  · intro d hd
    constructor
    · obtain ⟨l, hl, hmem⟩ := hwf.1 d
      refine ⟨l, ?_, List.count_eq_one_of_mem hl.1 (hmem r hd)⟩
      intro fuel hf
      unfold DispatcherBase.subscribers
      rw [hl.2.1]
      exact walkNext_Seg d l m none fuel hl.2.2.2 hf
    · intro d1 f l1 hne h1 hr1
      have e1 := ((subscribers_WellFormed hwf h1).2 r).mp hr1
      rw [hd] at e1
      exact hne (Option.some.inj e1).symm
  · intro hnone
    have hu := hwf.2 r hnone
    unfold Unsubscribed at hu
    refine ⟨?_, by rw [hu], by rw [hu]⟩
    intro d f l h1 hr1
    have e1 := ((subscribers_WellFormed hwf h1).2 r).mp hr1
    rw [hnone] at e1
    cases e1

/-- Instance of C20: receiver 3 after the sample run. -/
theorem C20_subscription_exclusive_witness :
    ∃ m : Memory Nat, runCalls Memory.initial sampleCalls = some (.ok m) ∧
      (m.receivers 3).m_dispatcher = some 0 ∧
      DispatcherBase.subscribers 2 m 0 = some [3, 4] ∧
      DispatcherBase.subscribers 2 m 1 = some [] ∧
      (∃ l, (∀ fuel, l.length ≤ fuel → DispatcherBase.subscribers fuel m 0 = some l) ∧
        l.count 3 = 1) ∧
      (∀ d1 f l1, d1 ≠ 0 → DispatcherBase.subscribers f m d1 = some l1 → 3 ∉ l1) :=
  ⟨_, rfl, by decide, by decide, by decide,
    ((C20_subscription_exclusive _ 3 ⟨sampleCalls, rfl⟩).2.1 0 (by decide)).1,
    ((C20_subscription_exclusive _ 3 ⟨sampleCalls, rfl⟩).2.1 0 (by decide)).2⟩

/-- C24: a member `r` of a well-formed list that is unsubscribed and then subscribed
again is placed at the tail: the list becomes the old list without `r` followed by `r`,
and a following `Dispatch` (collector always continuing) invokes the receivers that
stayed, in their order, and then `r`; for the list R1, R2, R3 and `r` = R1 the calls are
R2, R3, R1. -/
theorem C24_resubscribe_goes_to_tail {σ β : Type} (C : Collector σ β) (Receive : Nat → α → β)
    (m : Memory α) (d r : Nat) (l : List Nat) (replace : Bool) (x : α) (fuel : Nat)
    (hC : ∀ s b, (C.apply s b).2 = true)
    (hl : SubscriberList m d l) (hr : r ∈ l) (hf : l.length ≤ fuel) :
    ∃ m1 m2, DispatcherBase.Unsubscribe m d r = .ok m1 ∧
      DispatcherBase.Subscribe m1 d r replace = .ok (true, m2) ∧
      SubscriberList m2 d (l.erase r ++ [r]) ∧
      ∃ res m3, DispatcherBase.Dispatch C Receive fuel m2 d x = some (res, m3) ∧
        m3.calls = m2.calls ++ (l.erase r ++ [r]).map (fun j => (j, x)) ∧
        ∀ r2 r3, l = [r, r2, r3] → m3.calls = m2.calls ++ [(r2, x), (r3, x), (r, x)] := by
  obtain ⟨m1, h1, hl1, hr1, _⟩ := Unsubscribe_spec m d r l hl hr
  obtain ⟨m2, h2, hl2, _⟩ := Subscribe_spec m1 d r (l.erase r) replace hl1 hr1
  have hlen : (l.erase r ++ [r]).length ≤ fuel := by
    rw [List.length_append, List.length_singleton, List.length_erase_add_one hr]
    exact hf
  have hcalls : ({ m2 with calls := m2.calls ++
      (invoked C Receive x C.init (l.erase r ++ [r])).map (fun j => (j, x)) } : Memory α).calls =
      m2.calls ++ (l.erase r ++ [r]).map (fun j => (j, x)) := by
    simp only [invoked_of_always_continue C Receive x hC]
  refine ⟨m1, m2, h1, h2, hl2, _, _,
    Dispatch_spec C Receive x m2 d (l.erase r ++ [r]) fuel hl2 hlen, hcalls, ?_⟩
  intro r2 r3 h3
  rw [hcalls]
  subst h3
  simp

/-- Instance of C24: receiver 1 of the sample list 1, 2, 3 is unsubscribed and
subscribed again; the dispatch then calls 2, 3, 1. -/
theorem C24_resubscribe_goes_to_tail_witness :
    SubscriberList sampleMemory 0 [1, 2, 3] ∧ 1 ∈ [1, 2, 3] ∧
      ∃ m1 m2, DispatcherBase.Unsubscribe sampleMemory 0 1 = .ok m1 ∧
        DispatcherBase.Subscribe m1 0 1 false = .ok (true, m2) ∧
        ∃ res m3, DispatcherBase.Dispatch CollectDefaultVoid (fun _ _ => ()) 3 m2 0 7 =
            some (res, m3) ∧
          m3.calls = m2.calls ++ [(2, 7), (3, 7), (1, 7)] :=
  ⟨by decide, by decide,
    match C24_resubscribe_goes_to_tail CollectDefaultVoid (fun _ _ => ()) sampleMemory 0 1
      [1, 2, 3] false 7 3 (fun _ _ => rfl) (by decide) (by decide) (by decide) with
    | ⟨m1, m2, h1, h2, _, res, m3, h3, _, h5⟩ => ⟨m1, m2, h1, h2, res, m3, h3, h5 2 3 rfl⟩⟩

/-- C25: in a well-formed state with list `l` of `n` receivers, `Dispatch` and
`UnsubscribeAll` return with fuel `n` (at most `n` loop steps), `Dispatch` invoking at
most `n` receivers and none twice, and more fuel changes neither result; `Subscribe` and
`Unsubscribe` (of a member) are loop-free and return. -/
theorem C25_operations_complete {σ β : Type} (C : Collector σ β) (Receive : Nat → α → β)
    (m : Memory α) (d : Nat) (l : List Nat) (x : α)
    (hwf : WellFormed m) (hl : SubscriberList m d l) :
    (∃ res m1, DispatcherBase.Dispatch C Receive l.length m d x = some (res, m1) ∧
      m1.calls = m.calls ++ (invoked C Receive x C.init l).map (fun j => (j, x)) ∧
      (invoked C Receive x C.init l).length ≤ l.length ∧
      (invoked C Receive x C.init l).Nodup ∧
      ∀ k, DispatcherBase.Dispatch C Receive (l.length + k) m d x = some (res, m1)) ∧
    (∃ m1, DispatcherBase.UnsubscribeAll l.length m d = some (.ok m1) ∧
      ∀ k, DispatcherBase.UnsubscribeAll (l.length + k) m d = some (.ok m1)) ∧
    (∀ r replace, ∃ b m1, DispatcherBase.Subscribe m d r replace = .ok (b, m1)) ∧
    (∀ r, r ∈ l → ∃ m1, DispatcherBase.Unsubscribe m d r = .ok m1) := by
  refine ⟨?_, ?_, ?_, ?_⟩
  · have hsub := invoked_sublist C Receive x l C.init
    refine ⟨_, _, Dispatch_spec C Receive x m d l l.length hl (le_refl _), rfl,
      hsub.length_le, hl.1.sublist hsub, ?_⟩
    intro k
    exact Dispatch_spec C Receive x m d l (l.length + k) hl (by omega)
  · obtain ⟨m1, h1, _⟩ := UnsubscribeAll_spec m d l l.length hl (le_refl _)
    exact ⟨m1, h1, fun k => UnsubscribeAll_mono l.length m d _ h1 k⟩
  · intro r replace
    exact Subscribe_total m d r replace hwf
  · intro r hr
    obtain ⟨m1, h1, _⟩ := Unsubscribe_spec m d r l hl hr
    exact ⟨m1, h1⟩

/-- Instance of C25: dispatcher 0 of the sample state, stop-on-first-true collector. -/
theorem C25_operations_complete_witness :
    WellFormed sampleMemory ∧ SubscriberList sampleMemory 0 [1, 2, 3] ∧
      (∃ res m1, DispatcherBase.Dispatch CollectUntilTrue (fun r _ => decide (r = 2)) 3
          sampleMemory 0 7 = some (res, m1)) ∧
      (∃ m1, DispatcherBase.UnsubscribeAll 3 sampleMemory 0 = some (.ok m1)) :=
  ⟨sampleMemory_wellFormed, by decide,
    match (C25_operations_complete CollectUntilTrue (fun r _ => decide (r = 2)) sampleMemory 0
      [1, 2, 3] 7 sampleMemory_wellFormed (by decide)).1 with
    | ⟨res, m1, h1, _⟩ => ⟨res, m1, h1⟩,
    match (C25_operations_complete CollectUntilTrue (fun r _ => decide (r = 2)) sampleMemory 0
      [1, 2, 3] 7 sampleMemory_wellFormed (by decide)).2.1 with
    | ⟨m1, h1, _⟩ => ⟨m1, h1⟩⟩

/-- C26: in every reachable state no `Assert` can fail: `Subscribe` (either `replace`,
the forced unsubscribe included) returns normally, `Unsubscribe` of a receiver whose
back-reference is that dispatcher returns normally and the only fault `Unsubscribe` can
end with is its `Verify`, `UnsubscribeAll` returns normally with enough fuel and ends
with a fault for no fuel; a receiver with a null back-reference has null links and head
and tail are both null or both non-null. -/
theorem C26_no_assert_fails (m : Memory α) (h : Reachable m) :
    (∀ d r replace, ∃ b m1, DispatcherBase.Subscribe m d r replace = .ok (b, m1)) ∧
    (∀ d r, (m.receivers r).m_dispatcher = some d →
      ∃ m1, DispatcherBase.Unsubscribe m d r = .ok m1) ∧
    (∀ d r f m1, DispatcherBase.Unsubscribe m d r = .error (f, m1) → f = Fault.verify) ∧
    (∀ d, ∃ fuel m1, DispatcherBase.UnsubscribeAll fuel m d = some (.ok m1)) ∧
    (∀ d fuel e, DispatcherBase.UnsubscribeAll fuel m d ≠ some (.error e)) ∧
    (∀ r, (m.receivers r).m_dispatcher = none →
      (m.receivers r).m_previous = none ∧ (m.receivers r).m_next = none) ∧
    (∀ d, (m.dispatchers d).m_begin = none ↔ (m.dispatchers d).m_end = none) := by
  have hwf := WellFormed_of_Reachable m h
  refine ⟨fun d r replace => Subscribe_total m d r replace hwf, ?_, ?_, ?_, ?_, ?_, ?_⟩
  · intro d r hd
    obtain ⟨l, hl, hmem⟩ := hwf.1 d
    obtain ⟨m1, h1, _⟩ := Unsubscribe_spec m d r l hl (hmem r hd)
    exact ⟨m1, h1⟩
  · intro d r f m1 he
    by_cases hd : (m.receivers r).m_dispatcher = some d
    · obtain ⟨l, hl, hmem⟩ := hwf.1 d
      obtain ⟨m2, h2, _⟩ := Unsubscribe_spec m d r l hl (hmem r hd)
      rw [h2] at he
      cases he
    · rw [(Unsubscribe_verify_iff m d r).mpr hd] at he
      simp only [Except.error.injEq, Prod.mk.injEq] at he
      exact he.1.symm
  · intro d
    obtain ⟨l, hl, _⟩ := hwf.1 d
    obtain ⟨m1, h1, _⟩ := UnsubscribeAll_spec m d l l.length hl (le_refl _)
    exact ⟨l.length, m1, h1⟩
  · intro d fuel e
    obtain ⟨l, hl, _⟩ := hwf.1 d
    exact UnsubscribeAll_no_fault m d fuel l hl e
  · intro r hr
    have hu := hwf.2 r hr
    unfold Unsubscribed at hu
    rw [hu]
    exact ⟨rfl, rfl⟩
  · intro d
    obtain ⟨l, hl, _⟩ := hwf.1 d
    have hbe := SubscriberList_begin_end hl
    rw [hbe.1, hbe.2]

/-- Instance of C26: the state after the sample run. -/
theorem C26_no_assert_fails_witness :
    ∃ m : Memory Nat, runCalls Memory.initial sampleCalls = some (.ok m) ∧
      (∃ b m1, DispatcherBase.Subscribe m 1 3 true = .ok (b, m1)) ∧
      (m.receivers 4).m_dispatcher = some 0 ∧
      (∃ m1, DispatcherBase.Unsubscribe m 0 4 = .ok m1) :=
  ⟨_, rfl, (C26_no_assert_fails _ ⟨sampleCalls, rfl⟩).1 1 3 true, by decide,
    (C26_no_assert_fails _ ⟨sampleCalls, rfl⟩).2.1 0 4 (by decide)⟩

/-- C27: whenever `Dispatch` returns, exhausted or stopped early, every receiver's
back-reference and links and every dispatcher's head and tail are as before; on a
well-formed list a second `Dispatch` with the same handlers, collector and argument
invokes the same receivers in the same order as the first. -/
theorem C27_dispatch_frame {σ β : Type} (C : Collector σ β) (Receive : Nat → α → β)
    (m : Memory α) (d : Nat) (x : α) :
    (∀ fuel res m1, DispatcherBase.Dispatch C Receive fuel m d x = some (res, m1) →
      m1.receivers = m.receivers ∧ m1.dispatchers = m.dispatchers) ∧
    (∀ l fuel, SubscriberList m d l → l.length ≤ fuel →
      ∃ res m1 m2 calls, DispatcherBase.Dispatch C Receive fuel m d x = some (res, m1) ∧
        DispatcherBase.Dispatch C Receive fuel m1 d x = some (res, m2) ∧
        m1.calls = m.calls ++ calls ∧ m2.calls = m1.calls ++ calls ∧
        SubscriberList m1 d l ∧ SubscriberList m2 d l) := by
  refine ⟨fun fuel res m1 h => Dispatch_frame C Receive x fuel m m1 d res h, ?_⟩
  intro l fuel hl hf
  have h1 := Dispatch_spec C Receive x m d l fuel hl hf
  have hl1 : SubscriberList ({ m with calls := m.calls ++
      (invoked C Receive x C.init l).map (fun r => (r, x)) } : Memory α) d l :=
    @SubscriberList_frame α m _ d l (fun _ _ => rfl) rfl hl
  have h2 := Dispatch_spec C Receive x _ d l fuel hl1 hf
  have hl2 : SubscriberList ({ m with calls := (m.calls ++
      (invoked C Receive x C.init l).map (fun r => (r, x))) ++
      (invoked C Receive x C.init l).map (fun r => (r, x)) } : Memory α) d l :=
    @SubscriberList_frame α m _ d l (fun _ _ => rfl) rfl hl
  exact ⟨_, _, _, _, h1, h2, rfl, rfl, hl1, hl2⟩

/-- Instance of C27: two dispatches in a row on dispatcher 0 of the sample state, the
first stopping at receiver 2. -/
theorem C27_dispatch_frame_witness :
    SubscriberList sampleMemory 0 [1, 2, 3] ∧
      ∃ res m1 m2 calls,
        DispatcherBase.Dispatch CollectUntilTrue (fun r _ => decide (r = 2)) 3 sampleMemory 0 7 =
          some (res, m1) ∧
        DispatcherBase.Dispatch CollectUntilTrue (fun r _ => decide (r = 2)) 3 m1 0 7 =
          some (res, m2) ∧
        m1.calls = sampleMemory.calls ++ calls ∧ m2.calls = m1.calls ++ calls ∧
        SubscriberList m1 0 [1, 2, 3] ∧ SubscriberList m2 0 [1, 2, 3] :=
  ⟨by decide,
    (C27_dispatch_frame CollectUntilTrue (fun r _ => decide (r = 2)) sampleMemory 0 7).2
      [1, 2, 3] 3 (by decide) (by decide)⟩

end Claims

end Dispatcher

namespace Graphics

theorem u32_of_lt {n : Nat} (h : n < 2 ^ 32) : u32 n = n :=
  Nat.mod_eq_of_lt h

theorem sub32_of_le {a b : Nat} (ha : a < 2 ^ 32) (hb : b ≤ a) : sub32 a b = a - b := by
  unfold sub32
  have h1 : a + 2 ^ 32 - b = (a - b) + 2 ^ 32 := by omega
  rw [h1, Nat.add_mod_right]
  exact Nat.mod_eq_of_lt (by omega)

/-- The loop of lines 195-204 started at `i` with the rows `height - i` and above already
assigned: it ends within `height - i` steps with every row assigned, row `r` pointing at
offset `(height - 1 - r) * png_stride`. -/
theorem rowLoop_spec (h S : Nat) (hh : h < 2 ^ 32) (hS : h * S < 2 ^ 32) :
    ∀ (k i : Nat) (ptrs : List (Option Nat)), i + k = h → ptrs.length = h →
      (∀ r, r < h → ptrs[r]? = some (if h - i ≤ r then some ((h - 1 - r) * S) else none)) →
      ∃ out, Texture.Load.rowLoop h S k i ptrs = some out ∧ out.length = h ∧
        ∀ r, r < h → out[r]? = some (some ((h - 1 - r) * S)) := by
  intro k
  induction k with
  | zero =>
    intro i ptrs hi hlen hinv
    refine ⟨ptrs, ?_, hlen, ?_⟩
    · simp only [Texture.Load.rowLoop]
      rw [if_neg (by omega)]
    · intro r hr
      rw [hinv r hr, if_pos (by omega)]
  | succ k ih =>
    intro i ptrs hi hlen hinv
    have hilt : i < h := by omega
    have h1 : u32 (i + 1) = i + 1 := u32_of_lt (by omega)
    have h2 : sub32 (sub32 h i) 1 = h - i - 1 := by
      rw [sub32_of_le hh (by omega), sub32_of_le (by omega) (by omega)]
    have h3 : u32 (i * S) = i * S :=
      u32_of_lt (lt_of_le_of_lt (Nat.mul_le_mul_right S (by omega)) hS)
    simp only [Texture.Load.rowLoop]
    rw [if_pos hilt, h1, h2, h3]
    refine ih (i + 1) _ (by omega) (by rw [List.length_set]; exact hlen) ?_
    intro r hr
    rw [List.getElem?_set]
    by_cases hidx : h - i - 1 = r
    · rw [if_pos hidx, if_pos (by omega), if_pos (by omega)]
      have : h - 1 - r = i := by omega
      rw [this]
    · rw [if_neg hidx, hinv r hr]
      by_cases hle : h - i ≤ r
      · rw [if_pos hle, if_pos (by omega)]
      · rw [if_neg hle, if_neg (by omega)]

/-- The row pointers set up by `Texture::Load`. -/
theorem rowPointers_spec (w h c : Nat) (hh : h < 2 ^ 32) (hsize : w * h * c < 2 ^ 32) :
    ∃ ptrs, Texture.Load.rowPointers h w h c = some ptrs ∧ ptrs.length = h ∧
      ∀ r, r < h → ptrs[r]? = some (some ((h - 1 - r) * w * c)) := by
  unfold Texture.Load.rowPointers
  rcases Nat.eq_zero_or_pos h with h0 | hpos
  · subst h0
    exact ⟨[], by simp [Texture.Load.rowLoop], rfl, fun r hr => absurd hr (by omega)⟩
  · have hwc : w * c ≤ w * h * c := by
      calc w * c = w * 1 * c := by rw [Nat.mul_one]
        _ ≤ w * h * c := Nat.mul_le_mul_right c (Nat.mul_le_mul_left w hpos)
    have hstride : u32 (w * c) = w * c := u32_of_lt (lt_of_le_of_lt hwc hsize)
    have hS : h * (w * c) < 2 ^ 32 := by
      have : h * (w * c) = w * h * c := by ring
      rw [this]
      exact hsize
    rw [hstride]
    obtain ⟨out, h1, h2, h3⟩ := rowLoop_spec h (w * c) hh hS h 0 (List.replicate h none)
      (by omega) (by simp) (by
        intro r hr
        rw [List.getElem?_replicate, if_pos hr, if_neg (by omega)])
    refine ⟨out, h1, h2, ?_⟩
    intro r hr
    rw [h3 r hr, Nat.mul_assoc]

/-- C28: evaluation of lines 139-186 of `Texture::Load` on images of bit depth 16 of the
four colour types gray, gray-alpha, RGB and RGBA: each is rejected with "Unsupported
image depth size!", because `depth` still holds 16 when it is compared with 8. -/
theorem C28_depth_16_is_rejected :
    Texture.Load.process PNG_COLOR_TYPE_RGB 16 3 false =
        .error LoadError.UnsupportedImageDepthSize ∧
      Texture.Load.process PNG_COLOR_TYPE_RGBA 16 4 false =
        .error LoadError.UnsupportedImageDepthSize ∧
      Texture.Load.process PNG_COLOR_TYPE_GRAY 16 1 false =
        .error LoadError.UnsupportedImageDepthSize ∧
      Texture.Load.process PNG_COLOR_TYPE_GRAY_ALPHA 16 2 false =
        .error LoadError.UnsupportedImageDepthSize ∧
      Texture.Load.process PNG_COLOR_TYPE_GRAY 4 1 false =
        .ok (8, 1, ⟨true, false, false, false⟩) :=
  ⟨rfl, rfl, rfl, rfl, rfl⟩

/-- C29: for `png_uint_32` sizes with `w * h * c` below `2 ^ 32` the loop of
`Texture::Load` assigns every entry of the row-pointer array, row `r` getting offset
`(h - 1 - r) * w * c` of the data buffer of `w * h * c` bytes; the `w * c` bytes of each
row lie inside the buffer, the byte ranges of two different rows do not overlap, and
(when a row is not empty) different rows have different offsets. -/
theorem C29_row_pointers_flip (w h c : Nat) (hh : h < 2 ^ 32) (hsize : w * h * c < 2 ^ 32) :
    ∃ ptrs, Texture.Load.rowPointers h w h c = some ptrs ∧ ptrs.length = h ∧
      Texture.Load.dataSize w h c = w * h * c ∧
      (∀ r, r < h → ptrs[r]? = some (some ((h - 1 - r) * w * c))) ∧
      (∀ r, r < h → (h - 1 - r) * w * c + w * c ≤ w * h * c) ∧
      (∀ r s, r < h → s < h → r ≠ s →
        (h - 1 - r) * w * c + w * c ≤ (h - 1 - s) * w * c ∨
        (h - 1 - s) * w * c + w * c ≤ (h - 1 - r) * w * c) ∧
      (0 < w * c → ∀ r s, r < h → s < h →
        (h - 1 - r) * w * c = (h - 1 - s) * w * c → r = s) := by
  obtain ⟨ptrs, h1, h2, h3⟩ := rowPointers_spec w h c hh hsize
  have hstep : ∀ a b : Nat, a < b → a * w * c + w * c ≤ b * w * c := by
    intro a b hab
    have : a * w * c + w * c = (a + 1) * (w * c) := by ring
    rw [this, Nat.mul_assoc]
    exact Nat.mul_le_mul_right _ hab
  refine ⟨ptrs, h1, h2, ?_, h3, ?_, ?_, ?_⟩
  · unfold Texture.Load.dataSize
    rcases Nat.eq_zero_or_pos c with hc0 | hcpos
    · subst hc0
      simp [u32]
    · have hwh : w * h ≤ w * h * c := Nat.le_mul_of_pos_right _ hcpos
      rw [u32_of_lt (lt_of_le_of_lt hwh hsize), u32_of_lt hsize]
  · intro r hr
    have := hstep (h - 1 - r) h (by omega)
    have e : h * w * c = w * h * c := by ring
    rw [e] at this
    exact this
  · intro r s hr hs hrs
    rcases Nat.lt_or_gt_of_ne hrs with hlt | hgt
    · exact Or.inr (hstep (h - 1 - s) (h - 1 - r) (by omega))
    · exact Or.inl (hstep (h - 1 - r) (h - 1 - s) (by omega))
  · intro hpos r s hr hs heq
    rw [Nat.mul_assoc, Nat.mul_assoc] at heq
    have := Nat.eq_of_mul_eq_mul_right hpos heq
    omega

/-- Instance of C29: an image 2 pixels wide, 3 rows high, 4 channels. -/
theorem C29_row_pointers_flip_witness :
    (3 : Nat) < 2 ^ 32 ∧ 2 * 3 * 4 < 2 ^ 32 ∧
      Texture.Load.rowPointers 3 2 3 4 = some [some 16, some 8, some 0] ∧
      ∃ ptrs, Texture.Load.rowPointers 3 2 3 4 = some ptrs ∧ ptrs.length = 3 ∧
        Texture.Load.dataSize 2 3 4 = 2 * 3 * 4 ∧
        (∀ r, r < 3 → ptrs[r]? = some (some ((3 - 1 - r) * 2 * 4))) ∧
        (∀ r, r < 3 → (3 - 1 - r) * 2 * 4 + 2 * 4 ≤ 2 * 3 * 4) ∧
        (∀ r s, r < 3 → s < 3 → r ≠ s →
          (3 - 1 - r) * 2 * 4 + 2 * 4 ≤ (3 - 1 - s) * 2 * 4 ∨
          (3 - 1 - s) * 2 * 4 + 2 * 4 ≤ (3 - 1 - r) * 2 * 4) ∧
        (0 < 2 * 4 → ∀ r s, r < 3 → s < 3 →
          (3 - 1 - r) * 2 * 4 = (3 - 1 - s) * 2 * 4 → r = s) :=
  ⟨by decide, by decide, by decide, C29_row_pointers_flip 2 3 4 (by decide) (by decide)⟩

end Graphics

namespace Logger

/-- C30: evaluation of the constructor and destructor of `ConsoleOutput`: what the pair
writes to `std::cout` is the session start text twice, whereas `FileOutput` writes the
session start text on `Open` and the session end text on destruction; with the sample
texts the two differ. -/
theorem C30_console_session_bracket (fmt : DefaultFormat) (cout : List String) :
    ConsoleOutput.destructor fmt (ConsoleOutput.constructor fmt cout) =
        cout ++ [fmt.ComposeSessionStart, fmt.ComposeSessionStart] ∧
      (∃ f, FileOutput.Open fmt true FileOutput.constructor = .ok (true, f) ∧
        (FileOutput.destructor fmt f).written =
          [fmt.ComposeSessionStart, fmt.ComposeSessionEnd]) ∧
      ConsoleOutput.destructor sampleFormat (ConsoleOutput.constructor sampleFormat []) =
        ["Session started.", "Session started."] ∧
      ConsoleOutput.destructor sampleFormat (ConsoleOutput.constructor sampleFormat []) ≠
        ["Session started.", "Session ended."] := by
  refine ⟨by simp [ConsoleOutput.destructor, ConsoleOutput.constructor], ⟨_, rfl, ?_⟩,
    by decide, by decide⟩
  simp [FileOutput.destructor, FileOutput.constructor]

end Logger

namespace System

/-- A name that is not a key is not found. -/
theorem find_eq_none {name : String} {l : List (String × ResourcePtr)}
    (h : name ∉ l.map Prod.fst) : find name l = none := by
  induction l with
  | nil => rfl
  | cons e rest ih =>
    simp only [List.map_cons, List.mem_cons, not_or] at h
    simp only [find]
    rw [if_neg (fun e1 => h.1 e1.symm)]
    exact ih h.2

/-- In a map with distinct names an entry is found under its name. -/
theorem find_of_mem {name : String} {ptr : ResourcePtr} {l : List (String × ResourcePtr)}
    (hnd : (l.map Prod.fst).Nodup) (h : (name, ptr) ∈ l) : find name l = some ptr := by
  induction l with
  | nil => cases h
  | cons e rest ih =>
    simp only [List.map_cons, List.nodup_cons] at hnd
    simp only [find]
    rcases List.mem_cons.mp h with h0 | h0
    · subst h0
      simp
    · have hne : e.1 ≠ name := by
        intro e1
        apply hnd.1
        rw [e1]
        exact List.mem_map.mpr ⟨(name, ptr), h0, rfl⟩
      rw [if_neg hne]
      exact ih hnd.2 h0

/-- What is found is an entry of the map. -/
theorem mem_of_find {name : String} {ptr : ResourcePtr} {l : List (String × ResourcePtr)}
    (h : find name l = some ptr) : (name, ptr) ∈ l := by
  induction l with
  | nil => cases h
  | cons e rest ih =>
    simp only [find] at h
    split_ifs at h with h0
    · simp only [Option.some.injEq] at h
      rw [← h0, ← h]
      exact List.mem_cons_self _ _
    · exact List.mem_cons_of_mem _ (ih h)

/-- `Load` on a stored name returns the stored pointer and the pool as it was. -/
theorem Load_of_mem (TypeLoad : String → Bool) (pool : ResourcePool) (name : String)
    (ptr : ResourcePtr) (hv : pool.Valid) (h : (name, ptr) ∈ pool.m_resources) :
    ResourcePool.Load TypeLoad pool name = .ok (ptr, pool) := by
  unfold ResourcePool.Load
  rw [find_of_mem hv.1 h]
  simp only
  rw [if_neg (hv.2 (name, ptr) h)]

/-- `Load` keeps the map valid, and if the name is stored afterwards, the returned
pointer is the one stored under it. -/
theorem Load_spec (TypeLoad : String → Bool) (pool pool1 : ResourcePool) (name : String)
    (p : ResourcePtr) (hv : pool.Valid)
    (h : ResourcePool.Load TypeLoad pool name = .ok (p, pool1)) :
    pool1.Valid ∧ (name ∈ pool1.m_resources.map Prod.fst → (name, p) ∈ pool1.m_resources) := by
  unfold ResourcePool.Load at h
  cases hf : find name pool.m_resources with
  | some found =>
    rw [hf] at h
    simp only at h
    split_ifs at h with h0
    simp only [Except.ok.injEq, Prod.mk.injEq] at h
    obtain ⟨h1, h2⟩ := h
    subst h1 h2
    exact ⟨hv, fun _ => mem_of_find hf⟩
  | none =>
    rw [hf] at h
    simp only at h
    have hnot : name ∉ pool.m_resources.map Prod.fst := by
      intro hmem
      obtain ⟨e, he, hname⟩ := List.mem_map.mp hmem
      have := find_of_mem hv.1 (show (name, e.2) ∈ pool.m_resources by rw [← hname]; exact he)
      rw [hf] at this
      cases this
    split_ifs at h with h0
    · simp only [Except.ok.injEq, Prod.mk.injEq] at h
      obtain ⟨_, h2⟩ := h
      subst h2
      exact ⟨hv, fun hmem => absurd hmem hnot⟩
    · simp only [Except.ok.injEq, Prod.mk.injEq] at h
      obtain ⟨h1, h2⟩ := h
      subst h1 h2
      refine ⟨⟨?_, ?_⟩, fun _ => by simp⟩
      · simp only [List.map_append, List.map_cons, List.map_nil]
        rw [List.nodup_append]
        refine ⟨hv.1, by simp, ?_⟩
        intro a ha ha1
        simp only [List.mem_singleton] at ha1
        subst ha1
        exact hnot ha
      · intro e he
        rcases List.mem_append.mp he with h3 | h3
        · exact hv.2 e h3
        · simp only [List.mem_singleton] at h3
          subst h3
          simp

/-- The entries kept by the `ReleaseUnused` loop are those whose use count is not 1, in
their order. -/
theorem ReleaseUnused_loop_kept (holders : Nat → Nat) (l : List (String × ResourcePtr)) :
    (ResourcePool.ReleaseUnused.loop holders l).1 =
      l.filter (fun e => decide (use_count holders e.2 ≠ 1)) := by
  induction l with
  | nil => rfl
  | cons e rest ih =>
    simp only [ResourcePool.ReleaseUnused.loop]
    by_cases h : use_count holders e.2 = 1
    · rw [if_pos h, List.filter_cons_of_neg (by simp [h])]
      exact ih
    · rw [if_neg h, List.filter_cons_of_pos (by simp [h])]
      simp only
      rw [ih]

/-- The names logged by the `ReleaseUnused` loop are those of the entries whose use
count is 1, in their order. -/
theorem ReleaseUnused_loop_logged (holders : Nat → Nat) (l : List (String × ResourcePtr)) :
    (ResourcePool.ReleaseUnused.loop holders l).2 =
      (l.filter (fun e => decide (use_count holders e.2 = 1))).map Prod.fst := by
  induction l with
  | nil => rfl
  | cons e rest ih =>
    simp only [ResourcePool.ReleaseUnused.loop]
    by_cases h : use_count holders e.2 = 1
    · rw [if_pos h, List.filter_cons_of_pos (by simp [h])]
      simp only [List.map_cons]
      rw [ih]
    · rw [if_neg h, List.filter_cons_of_neg (by simp [h])]
      exact ih

/-- A stored (non-null) pointer has a use count of at least 1. -/
theorem use_count_pos (holders : Nat → Nat) {p : ResourcePtr} (h : p ≠ none) :
    1 ≤ use_count holders p := by
  cases p with
  | none => exact absurd rfl h
  | some o =>
    show 1 ≤ 1 + holders o
    omega

/-- `Load` of a name that is not stored and whose resource-type `Load` succeeds: the
freshly made object is stored under the name and returned. -/
theorem Load_of_new (TypeLoad : String → Bool) (pool : ResourcePool) (name : String)
    (hn : name ∉ pool.m_resources.map Prod.fst) (hok : TypeLoad name = true) :
    ResourcePool.Load TypeLoad pool name =
      .ok (some pool.allocated,
        { pool with m_resources := pool.m_resources ++ [(name, some pool.allocated)],
                    allocated := pool.allocated + 1, loads := pool.loads ++ [name] }) := by
  unfold ResourcePool.Load
  rw [find_eq_none hn]
  simp [hok]

/-- C21: in a pool whose map is valid, `Load` of a name stored in the pool returns the
stored resource and leaves the pool exactly as it was (the log of the resource type's
`Load` invocations included); whenever a `Load` ends with the name stored, a second
`Load` of that name returns the same resource and changes nothing; and a `Load` of a
name not yet stored whose resource-type `Load` succeeds does store the new resource
under that name, so that the second `Load` returns that same resource without invoking
the resource type's `Load` again. -/
theorem C21_load_returns_existing (TypeLoad : String → Bool) (pool : ResourcePool)
    (name : String) (hv : pool.Valid) :
    (∀ ptr, (name, ptr) ∈ pool.m_resources →
      ResourcePool.Load TypeLoad pool name = .ok (ptr, pool)) ∧
    (∀ p pool1, ResourcePool.Load TypeLoad pool name = .ok (p, pool1) →
      name ∈ pool1.m_resources.map Prod.fst →
      ResourcePool.Load TypeLoad pool1 name = .ok (p, pool1)) ∧
    (name ∉ pool.m_resources.map Prod.fst → TypeLoad name = true →
      ∃ pool1, ResourcePool.Load TypeLoad pool name = .ok (some pool.allocated, pool1) ∧
        pool1.m_resources = pool.m_resources ++ [(name, some pool.allocated)] ∧
        pool1.m_default = pool.m_default ∧ pool1.loads = pool.loads ++ [name] ∧
        ResourcePool.Load TypeLoad pool1 name = .ok (some pool.allocated, pool1)) := by
  refine ⟨fun ptr h => Load_of_mem TypeLoad pool name ptr hv h, ?_, ?_⟩
  · intro p pool1 h hmem
    obtain ⟨hv1, hstored⟩ := Load_spec TypeLoad pool pool1 name p hv h
    exact Load_of_mem TypeLoad pool1 name p hv1 (hstored hmem)
  · intro hn hok
    have h1 := Load_of_new TypeLoad pool name hn hok
    obtain ⟨hv1, _⟩ := Load_spec TypeLoad pool _ name _ hv h1
    exact ⟨_, h1, rfl, rfl, rfl,
      Load_of_mem TypeLoad _ name (some pool.allocated) hv1 (by simp)⟩

/-- Instance of C21: the sample pool and a name stored in it, then a name loaded anew and
loaded again. -/
theorem C21_load_returns_existing_witness :
    samplePool.Valid ∧ ("grass.png", some 3) ∈ samplePool.m_resources ∧
      ResourcePool.Load (fun _ => true) samplePool "grass.png" = .ok (some 3, samplePool) ∧
      "stone.png" ∉ samplePool.m_resources.map Prod.fst ∧
      ∃ pool1, ResourcePool.Load (fun _ => true) samplePool "stone.png" = .ok (some 4, pool1) ∧
        pool1.m_resources = samplePool.m_resources ++ [("stone.png", some 4)] ∧
        pool1.m_default = samplePool.m_default ∧
        pool1.loads = samplePool.loads ++ ["stone.png"] ∧
        ResourcePool.Load (fun _ => true) pool1 "stone.png" = .ok (some 4, pool1) :=
  ⟨by decide, by decide,
    (C21_load_returns_existing (fun _ => true) samplePool "grass.png" (by decide)).1 (some 3)
      (by decide),
    by decide,
    (C21_load_returns_existing (fun _ => true) samplePool "stone.png" (by decide)).2.2
      (by decide) rfl⟩

/-- C22: `Load` of a name that is not stored and whose resource-type `Load` fails returns
the pool's default resource and leaves the map and the default as they were; the default
is the resource last given to `SetDefault`, or the one made by the constructor. -/
theorem C22_failed_load_returns_default (TypeLoad : String → Bool) (pool : ResourcePool)
    (name : String) (hn : name ∉ pool.m_resources.map Prod.fst)
    (hfail : TypeLoad name = false) :
    (∃ pool1, ResourcePool.Load TypeLoad pool name = .ok (pool.m_default, pool1) ∧
      pool1.m_resources = pool.m_resources ∧ pool1.m_default = pool.m_default ∧
      pool1.loads = pool.loads ++ [name]) ∧
    (∀ check pool0 resource, ResourcePool.SetDefault check pool0 resource = .ok pool →
      pool.m_default = resource ∧ pool.m_resources = pool0.m_resources) ∧
    (ResourcePool.constructor.m_default = some 0 ∧ ResourcePool.constructor.m_resources = []) := by
  refine ⟨⟨{ pool with allocated := pool.allocated + 1, loads := pool.loads ++ [name] },
    ?_, rfl, rfl, rfl⟩, ?_, rfl, rfl⟩
  · unfold ResourcePool.Load
    rw [find_eq_none hn]
    simp [hfail]
  · intro check pool0 resource h
    unfold ResourcePool.SetDefault at h
    split_ifs at h
    simp only [Except.ok.injEq] at h
    rw [← h]
    exact ⟨rfl, rfl⟩

/-- Instance of C22: a missing file is asked of the sample pool. -/
theorem C22_failed_load_returns_default_witness :
    "missing.png" ∉ samplePool.m_resources.map Prod.fst ∧
      ∃ pool1, ResourcePool.Load (fun _ => false) samplePool "missing.png" =
          .ok (some 0, pool1) ∧
        pool1.m_resources = samplePool.m_resources ∧ pool1.m_default = samplePool.m_default ∧
        pool1.loads = samplePool.loads ++ ["missing.png"] :=
  ⟨by decide,
    (C22_failed_load_returns_default (fun _ => false) samplePool "missing.png" (by decide)
      rfl).1⟩

/-- C23: on a valid map `ReleaseUnused` leaves exactly the entries whose use count was
greater than 1, unchanged and in their order, removes every entry whose use count was 1
(logging its name), and leaves the default resource as it was. -/
theorem C23_releaseUnused (holders : Nat → Nat) (pool : ResourcePool) (hv : pool.Valid) :
    (ResourcePool.ReleaseUnused holders pool).1.m_resources =
        pool.m_resources.filter (fun e => decide (1 < use_count holders e.2)) ∧
      (∀ e, e ∈ (ResourcePool.ReleaseUnused holders pool).1.m_resources ↔
        e ∈ pool.m_resources ∧ 1 < use_count holders e.2) ∧
      (∀ e, e ∈ pool.m_resources → use_count holders e.2 = 1 →
        e ∉ (ResourcePool.ReleaseUnused holders pool).1.m_resources ∧
        e.1 ∈ (ResourcePool.ReleaseUnused holders pool).2) ∧
      (ResourcePool.ReleaseUnused holders pool).1.m_default = pool.m_default ∧
      (ResourcePool.ReleaseUnused holders pool).1.Valid := by
  have hkept : (ResourcePool.ReleaseUnused holders pool).1.m_resources =
      pool.m_resources.filter (fun e => decide (1 < use_count holders e.2)) := by
    simp only [ResourcePool.ReleaseUnused]
    rw [ReleaseUnused_loop_kept]
    apply List.filter_congr
    intro e he
    have hpos := use_count_pos holders (hv.2 e he)
    have h2 : use_count holders e.2 ≠ 1 ↔ 1 < use_count holders e.2 := by omega
    exact decide_eq_decide.mpr h2
  refine ⟨hkept, ?_, ?_, rfl, ?_⟩
  · intro e
    rw [hkept, List.mem_filter]
    simp
  · intro e he h1
    constructor
    · rw [hkept, List.mem_filter]
      simp [h1]
    · simp only [ResourcePool.ReleaseUnused]
      rw [ReleaseUnused_loop_logged]
      exact List.mem_map.mpr ⟨e, List.mem_filter.mpr ⟨he, by simp [h1]⟩, rfl⟩
  · constructor
    · rw [hkept]
      exact hv.1.sublist ((List.filter_sublist _).map Prod.fst)
    · intro e he
      rw [hkept] at he
      exact hv.2 e (List.mem_filter.mp he).1

/-- Instance of C23: in the sample pool only the checkerboard texture has an outside
owner. -/
theorem C23_releaseUnused_witness :
    samplePool.Valid ∧
      (ResourcePool.ReleaseUnused sampleHolders samplePool).1.m_resources =
        [("checkerboard.png", some 1)] ∧
      (ResourcePool.ReleaseUnused sampleHolders samplePool).2 = ["grass.png"] ∧
      (ResourcePool.ReleaseUnused sampleHolders samplePool).1.m_resources =
        samplePool.m_resources.filter (fun e => decide (1 < use_count sampleHolders e.2)) :=
  ⟨by decide, by decide, by decide,
    (C23_releaseUnused sampleHolders samplePool (by decide)).1⟩

end System
